import Mathlib

/-!
# Verification of the session store and notification service of `sse-demo`

Shallow embedding of `auth/session.go` and `service/service.go`.

Modelling conventions.

* A Go `map[string]V` is an association list `GoMap V`.  Go gives no iteration
  order, so the order of the list carries no meaning; every statement below is
  phrased through `GoMap.get?`.
* `time.Time` and `time.Duration` are integers (nanoseconds); `t.After(u)` is
  `u < t` and `t.Add(d)` is `t + d`.
* Reads of the environment (`time.Now()`, `rand.Read`, `uuid.New().String()`,
  `json.Marshal`) are explicit arguments of the operation that performs them.
* Locks are not modelled: every operation is one atomic state transformer.
* `log.Printf` has no effect on the state and is left out.
-/

namespace SseDemo

/-! ## Go maps -/

/-- A Go `map[string]V`. -/
abbrev GoMap (V : Type) := List (String × V)

namespace GoMap

variable {V : Type}

/-- The comma-ok lookup `v, ok := m[k]`. -/
def get? : GoMap V → String → Option V
  | [], _ => none
  | (k', v) :: rest, k => if k' = k then some v else get? rest k

/-- The builtin `delete(m, k)`. -/
def delete (m : GoMap V) (k : String) : GoMap V :=
  m.filter (fun p => decide (p.1 ≠ k))

/-- The assignment `m[k] = v`. -/
def set (m : GoMap V) (k : String) (v : V) : GoMap V :=
  (k, v) :: delete m k

/-- The keys visited by `for k := range m`. -/
def keys (m : GoMap V) : List String :=
  m.map Prod.fst

end GoMap

/-! ## auth/session.go -/

/-- Instants of `time.Time`, in nanoseconds. -/
abbrev Time := Int

/-- Values of `time.Duration`, in nanoseconds. -/
abbrev Duration := Int

/-- The struct `Session`. -/
structure Session where
  ID : String
  Username : String
  CreatedAt : Time
  ExpiresAt : Time
  deriving DecidableEq, Repr

/-- The struct `SessionStore` (without its lock). -/
structure SessionStore where
  sessions : GoMap Session
  deriving DecidableEq, Repr

/-- The constructor `NewSessionStore`. -/
def NewSessionStore : SessionStore :=
  { sessions := [] }

/-- One digit of the table `0123456789abcdef` used by `encoding/hex`. -/
def hexDigit (n : Nat) : Char :=
  "0123456789abcdef".toList.getD n '0'

/-- The function `hex.EncodeToString`: two lowercase digits per byte, high nibble first. -/
def hexEncodeToString (b : List (Fin 256)) : String :=
  String.mk (b.flatMap (fun x => [hexDigit (x.val / 16), hexDigit (x.val % 16)]))

/-- The outcomes of one call `rand.Read(b)` of `crypto/rand`: the buffer is filled
and no error is returned, byte `i` of the buffer being `src i`; or an error is
returned and the buffer is left as it was (possible up to Go 1.23); or the
process is aborted (a failing source since Go 1.24, where `rand.Read` never
returns an error). -/
inductive RandRead where
  | filled (src : Nat → Fin 256)
  | failed (err : String)
  | aborted

/-- The call `rand.Read(b)`: the buffer afterwards and the returned error, `none`
for the nil error; the outer `none` is the abort of the process. -/
def randRead (rnd : RandRead) (b : List (Fin 256)) :
    Option (List (Fin 256) × Option String) :=
  match rnd with
  | .filled src => some ((List.range b.length).map src, none)
  | .failed err => some (b, some err)
  | .aborted => none

/-- The function `generateSessionID`; `rnd` is the outcome of its call of
`rand.Read` on the buffer `make([]byte, 32)`.  The outer `none` is the abort of
the process. -/
def generateSessionID (rnd : RandRead) : Option (Except String String) :=
  let b : List (Fin 256) := List.replicate 32 0
  match randRead rnd b with
  | none => none
  | some (_, some err) => some (.error err)
  | some (b', none) => some (.ok (hexEncodeToString b'))

/-- The method `CreateSession`; `now` is the reading of `time.Now()`.  The result
pairs the returned `(*Session, error)` with the store afterwards; the outer
`none` is the abort of the process inside `rand.Read`. -/
def CreateSession (s : SessionStore) (username : String) (duration : Duration)
    (now : Time) (rnd : RandRead) : Option (Except String Session × SessionStore) :=
  match generateSessionID rnd with
  | none => none
  | some (.error err) => some (.error err, s)
  | some (.ok sessionID) =>
    let session : Session :=
      { ID := sessionID, Username := username, CreatedAt := now, ExpiresAt := now + duration }
    some (.ok session, { sessions := s.sessions.set sessionID session })

/-- The method `GetSession`; `now` is the reading of `time.Now()`.  The result
pairs the returned `(*Session, bool)`, as an option, with the store afterwards. -/
def GetSession (s : SessionStore) (sessionID : String) (now : Time) :
    Option Session × SessionStore :=
  match s.sessions.get? sessionID with
  | none => (none, s)
  | some session =>
    if session.ExpiresAt < now then
      (none, { sessions := s.sessions.delete sessionID })
    else
      (some session, s)

/-- The method `DeleteSession`. -/
def DeleteSession (s : SessionStore) (sessionID : String) : SessionStore :=
  { sessions := s.sessions.delete sessionID }

/-! ## types/types.go -/

/-- The string type `EventType`. -/
abbrev EventType := String

/-- The constant `EventTypeNotification`. -/
def EventTypeNotification : EventType := "notification"

/-- The constant `EventTypeUserConnected`. -/
def EventTypeUserConnected : EventType := "user_connected"

/-- The constant `EventTypeUserDisconnected`. -/
def EventTypeUserDisconnected : EventType := "user_disconnected"

/-- The constant `EventTypeAcknowledgmentRequest`. -/
def EventTypeAcknowledgmentRequest : EventType := "acknowledgment_request"

/-- The constant `EventTypeAcknowledgmentResponse`. -/
def EventTypeAcknowledgmentResponse : EventType := "acknowledgment_response"

/-- The struct `NotifyRequest`. -/
structure NotifyRequest where
  FromUsername : String
  Message : String
  TargetUsername : String
  deriving DecidableEq, Repr

/-- The struct `Notification`. -/
structure Notification where
  Id : String
  From : String
  Message : String
  Timestamp : Time
  deriving DecidableEq, Repr

/-- The struct `UserConnectedPayload`. -/
structure UserConnectedPayload where
  Username : String
  deriving DecidableEq, Repr

/-- The struct `UserDisconnectedPayload`. -/
structure UserDisconnectedPayload where
  Username : String
  deriving DecidableEq, Repr

/-- The struct `AcknowledgmentRequest`. -/
structure AcknowledgmentRequest where
  ID : String
  FromUsername : String
  ToUsernames : List String
  Message : String
  CreatedAt : Time
  deriving DecidableEq, Repr

/-- The struct `AcknowledgmentRequestPayload`. -/
structure AcknowledgmentRequestPayload where
  ID : String
  FromUsername : String
  ToUsernames : List String
  Message : String
  deriving DecidableEq, Repr

/-- The struct `AcknowledgmentResponsePayload`. -/
structure AcknowledgmentResponsePayload where
  RequestID : String
  FromUsername : String
  deriving DecidableEq, Repr

/-- The dynamic values the service stores in the `interface{}` field `SSEEvent.Payload`. -/
inductive Payload where
  | notification (p : Notification)
  | userConnected (p : UserConnectedPayload)
  | userDisconnected (p : UserDisconnectedPayload)
  | acknowledgmentRequest (p : AcknowledgmentRequestPayload)
  | acknowledgmentResponse (p : AcknowledgmentResponsePayload)
  deriving DecidableEq, Repr

/-- The struct `SSEEvent`; the field `Type` is spelled `Type'`. -/
structure SSEEvent where
  Type' : EventType
  Payload : Payload
  Timestamp : Time
  deriving DecidableEq, Repr

/-- The signature of `json.Marshal` at `SSEEvent`, followed by the conversion to
`string`: the serialised envelope, or an error. -/
abbrev Marshal := SSEEvent → Except String String

/-! ## Channels -/

/-- A buffered `chan string`: pending elements oldest first, capacity, closed flag. -/
structure Chan where
  buf : List String
  cap : Nat
  closed : Bool
  deriving DecidableEq, Repr

/-- A channel value is a reference: the index of the channel in the heap. -/
abbrev ChanId := Nat

/-- All channels allocated so far. -/
abbrev Heap := List Chan

/-- The allocation `make(chan string, cap)`: a fresh, empty, open channel. -/
def makeChan (h : Heap) (cap : Nat) : ChanId × Heap :=
  (h.length, h ++ [{ buf := [], cap := cap, closed := false }])

/-- The builtin `close(ch)`; `none` is the run-time panic on closing a closed channel. -/
def closeChan (h : Heap) (c : ChanId) : Option Heap :=
  match h[c]? with
  | none => none
  | some ch => if ch.closed then none else some (h.set c { ch with closed := true })

/-- The statement `select { case ch <- x: default: }` with no receiver waiting:
the element is appended when the buffer has room and dropped otherwise; `none`
is the run-time panic on sending on a closed channel. -/
def trySend (h : Heap) (c : ChanId) (x : String) : Option Heap :=
  match h[c]? with
  | none => none
  | some ch =>
    if ch.closed then none
    else if ch.buf.length < ch.cap then some (h.set c { ch with buf := ch.buf ++ [x] })
    else some h

/-! ## service/service.go -/

/-- The struct `NotificationService` (without its lock), together with the heap
of channels its `clients` map refers to. -/
structure NotificationService where
  chans : Heap
  clients : GoMap ChanId
  acknowledgmentReqs : GoMap AcknowledgmentRequest
  acknowledgmentAckd : GoMap (List String)
  deriving DecidableEq, Repr

/-- The constructor `NewNotificationService`. -/
def NewNotificationService : NotificationService :=
  { chans := [], clients := [], acknowledgmentReqs := [], acknowledgmentAckd := [] }

/-- The recipient set computed by `broadcastEventLocked`, as the list of its members. -/
def recipientsOf (clients : GoMap ChanId) (targetUsers : List String) : List String :=
  if targetUsers.length = 0 then
    clients.keys
  else
    targetUsers.filter (fun username => (clients.get? username).isSome)

/-- The final loop of `broadcastEventLocked` over the entries of `s.clients`. -/
def sendLoop (recipients : List String) (eventStr : String) :
    List (String × ChanId) → Heap → Option Heap
  | [], h => some h
  | (username, ch) :: rest, h =>
    if username ∈ recipients then
      match trySend h ch eventStr with
      | none => none
      | some h' => sendLoop recipients eventStr rest h'
    else
      sendLoop recipients eventStr rest h

/-- The method `broadcastEventLocked`; `now` is the reading of `time.Now()`. -/
def broadcastEventLocked (marshal : Marshal) (s : NotificationService)
    (eventType : EventType) (payload : Payload) (now : Time)
    (targetUsers : List String) : Option NotificationService :=
  let event : SSEEvent := { Type' := eventType, Payload := payload, Timestamp := now }
  match marshal event with
  | .error _ => some s
  | .ok eventStr =>
    match sendLoop (recipientsOf s.clients targetUsers) eventStr s.clients s.chans with
    | none => none
    | some h => some { s with chans := h }

/-- The method `AddClient`; `now` is the reading of `time.Now()` in the broadcast. -/
def AddClient (marshal : Marshal) (s : NotificationService) (username : String)
    (now : Time) : Option (ChanId × NotificationService) :=
  let closed : Option Heap :=
    match s.clients.get? username with
    | some ch => closeChan s.chans ch
    | none => some s.chans
  match closed with
  | none => none
  | some h =>
    let (ch, h') := makeChan h 10
    let s' : NotificationService := { s with chans := h', clients := s.clients.set username ch }
    match broadcastEventLocked marshal s' EventTypeUserConnected
        (.userConnected { Username := username }) now [] with
    | none => none
    | some s'' => some (ch, s'')

/-- The method `RemoveClient`; `now` is the reading of `time.Now()` in the broadcast. -/
def RemoveClient (marshal : Marshal) (s : NotificationService) (username : String)
    (now : Time) : Option NotificationService :=
  match s.clients.get? username with
  | some ch =>
    match closeChan s.chans ch with
    | none => none
    | some h =>
      let s' : NotificationService := { s with chans := h, clients := s.clients.delete username }
      broadcastEventLocked marshal s' EventTypeUserDisconnected
        (.userDisconnected { Username := username }) now []
  | none => some s

/-- The method `GetConnectedUsers`. -/
def GetConnectedUsers (s : NotificationService) : List String :=
  s.clients.keys

/-- The method `BroadcastMessage`; `id` is the value of `uuid.New().String()`,
`now` the reading of `time.Now()` for the notification and `now'` the one in
the broadcast. -/
def BroadcastMessage (marshal : Marshal) (s : NotificationService) (req : NotifyRequest)
    (id : String) (now now' : Time) : Option NotificationService :=
  let notification : Notification :=
    { Id := id, From := req.FromUsername, Message := req.Message, Timestamp := now }
  if req.TargetUsername = "all" then
    broadcastEventLocked marshal s EventTypeNotification (.notification notification) now' []
  else
    broadcastEventLocked marshal s EventTypeNotification (.notification notification) now'
      [req.TargetUsername]

/-- The method `CreateAcknowledgmentRequest`; `requestID` is the value of
`uuid.New().String()`, `now` the reading of `time.Now()` for the request and
`now'` the one in the broadcast. -/
def CreateAcknowledgmentRequest (marshal : Marshal) (s : NotificationService)
    (fromUsername : String) (toUsernames : List String) (message : String)
    (requestID : String) (now now' : Time) : Option (String × NotificationService) :=
  let req : AcknowledgmentRequest :=
    { ID := requestID, FromUsername := fromUsername, ToUsernames := toUsernames,
      Message := message, CreatedAt := now }
  let s' : NotificationService :=
    { s with
      acknowledgmentReqs := s.acknowledgmentReqs.set requestID req
      acknowledgmentAckd := s.acknowledgmentAckd.set requestID [] }
  let payload : AcknowledgmentRequestPayload :=
    { ID := req.ID, FromUsername := req.FromUsername, ToUsernames := req.ToUsernames,
      Message := req.Message }
  match broadcastEventLocked marshal s' EventTypeAcknowledgmentRequest
      (.acknowledgmentRequest payload) now' toUsernames with
  | none => none
  | some s'' => some (requestID, s'')

/-- The method `RecordAcknowledgment`; `now` is the reading of `time.Now()` in
the broadcast.  A missing entry of `acknowledgmentAckd` reads as the nil slice. -/
def RecordAcknowledgment (marshal : Marshal) (s : NotificationService)
    (requestID : String) (fromUsername : String) (now : Time) :
    Option NotificationService :=
  match s.acknowledgmentReqs.get? requestID with
  | some req =>
    let s' : NotificationService :=
      { s with
        acknowledgmentAckd := s.acknowledgmentAckd.set requestID
          ((s.acknowledgmentAckd.get? requestID).getD [] ++ [fromUsername]) }
    let payload : AcknowledgmentResponsePayload :=
      { RequestID := requestID, FromUsername := fromUsername }
    broadcastEventLocked marshal s' EventTypeAcknowledgmentResponse
      (.acknowledgmentResponse payload) now [req.FromUsername]
  | none => some s

/-! ## handler/handler.go -/

/-- Modelled from the spec: the generated body type of `PostLoginRequestObject` is not
among the sources; it is the login request of the external interface, with the one
field `Username` that `PostLogin` reads. -/
structure LoginRequest where
  Username : String
  deriving DecidableEq, Repr

/-- Modelled from the spec: the generated body type of
`PostAcknowledgeRequestRequestObject` is not among the sources; it is the
create-acknowledgment request of the external interface, with the fields
`ToUsernames` and `Message` that `PostAcknowledgeRequest` reads. -/
structure AcknowledgeRequestBody where
  ToUsernames : List String
  Message : String
  deriving DecidableEq, Repr

/-- Modelled from the spec: the generated type `PostLogin200JSONResponse` is not among
the sources; kept here are the username of its body and its `SetCookie` header. -/
structure LoginResponse where
  Username : String
  SetCookie : String
  deriving DecidableEq, Repr

/-- The struct `StrictApiHandler`: the two components the handlers act on. -/
structure StrictApiHandler where
  Service : NotificationService
  SessionStore : SessionStore
  deriving DecidableEq, Repr

/-- The constant `SessionCookieName` of `auth/middleware.go`. -/
def SessionCookieName : String := "session_id"

/-- The method `PostLogin`; `body` is `request.Body`, `none` for the nil pointer;
`now` and `rnd` are read by `CreateSession`.  The session lasts `24*time.Hour`.
The outer `none` is the abort of the process inside `rand.Read`. -/
def PostLogin (h : StrictApiHandler) (body : Option LoginRequest) (now : Time)
    (rnd : RandRead) : Option (Except String LoginResponse × StrictApiHandler) :=
  match body with
  | none => some (.error "request body is required", h)
  | some b =>
    let username := b.Username
    if username = "" then
      some (.error "username is required", h)
    else
      match CreateSession h.SessionStore username (24 * 3600000000000) now rnd with
      | none => none
      | some (.error err, store) =>
        some (.error ("failed to create session: " ++ err), { h with SessionStore := store })
      | some (.ok session, store) =>
        let cookieStr := SessionCookieName ++ "=" ++ session.ID
          ++ "; Path=/; HttpOnly; Max-Age=" ++ toString (24 * 60 * 60)
        some (.ok { Username := username, SetCookie := cookieStr },
          { h with SessionStore := store })

/-- The method `PostNotify`; `body` is `request.Body`, `none` for the nil pointer.
The handler starts `BroadcastMessage` with `go` and answers success at once; the
state returned is the one after the started call has run, whose environment
readings are `id`, `now` and `now'`.  The outer `none` is a panic of that call. -/
def PostNotify (marshal : Marshal) (h : StrictApiHandler) (body : Option NotifyRequest)
    (id : String) (now now' : Time) : Option (Except String Bool × StrictApiHandler) :=
  match body with
  | none => some (.error "request body is required", h)
  | some b =>
    let typesReq : NotifyRequest :=
      { FromUsername := b.FromUsername, Message := b.Message,
        TargetUsername := b.TargetUsername }
    match BroadcastMessage marshal h.Service typesReq id now now' with
    | none => none
    | some svc => some (.ok true, { h with Service := svc })

/-- The method `PostAcknowledgeRequest`.  `ginCtx` is `none` when the context is not
a `*gin.Context` and otherwise holds the result of reading the session cookie
(`none` when the cookie is absent); `body` is `request.Body`; `tGet` is the clock
reading of `GetSession`; `requestID`, `now`, `now'` are read by
`CreateAcknowledgmentRequest`.  The result is the returned request id or the error. -/
def PostAcknowledgeRequest (marshal : Marshal) (h : StrictApiHandler)
    (ginCtx : Option (Option String)) (body : Option AcknowledgeRequestBody) (tGet : Time)
    (requestID : String) (now now' : Time) :
    Option (Except String String × StrictApiHandler) :=
  match ginCtx with
  | none => some (.error "context is not a gin.Context", h)
  | some none => some (.error "session not found", h)
  | some (some sessionID) =>
    match GetSession h.SessionStore sessionID tGet with
    | (none, store) =>
      some (.error "invalid or expired session", { h with SessionStore := store })
    | (some session, store) =>
      let h' : StrictApiHandler := { h with SessionStore := store }
      match body with
      | none => some (.error "request body is required", h')
      | some b =>
        if b.ToUsernames.length = 0 then
          some (.error "to_usernames is required and must not be empty", h')
        else if b.Message = "" then
          some (.error "message is required", h')
        else
          match CreateAcknowledgmentRequest marshal h'.Service session.Username
              b.ToUsernames b.Message requestID now now' with
          | none => none
          | some (id, svc) => some (.ok id, { h' with Service := svc })

/-! ## Well-formed states and runs -/

/-- The contents of an open channel after one non-blocking send of `x`. -/
def Chan.push (ch : Chan) (x : String) : Chan :=
  if ch.buf.length < ch.cap then { ch with buf := ch.buf ++ [x] } else ch

/-- The invariant of the service: the registry has one entry per username, no
two usernames share a channel, every registered channel is allocated and open,
and every channel has capacity 10 and holds no more than its capacity. -/
def WF (s : NotificationService) : Prop :=
  s.clients.keys.Nodup
    ∧ (s.clients.map Prod.snd).Nodup
    ∧ (∀ p ∈ s.clients, (s.chans[p.2]?).map Chan.closed = some false)
    ∧ (∀ ch ∈ s.chans, ch.cap = 10 ∧ ch.buf.length ≤ ch.cap)

instance (s : NotificationService) : Decidable (WF s) := by
  unfold WF
  infer_instance

/-- The mailbox registered for `username`, if any: the channel its registry entry refers to. -/
def mailbox (s : NotificationService) (username : String) : Option Chan :=
  match s.clients.get? username with
  | none => none
  | some c => s.chans[c]?

/-- The state `s'` is the state `s` after the string `ev` was offered, without
blocking, to the mailbox of every registered user in `R`. -/
def Delivers (s s' : NotificationService) (R : List String) (ev : String) : Prop :=
  s'.clients = s.clients
    ∧ s'.acknowledgmentReqs = s.acknowledgmentReqs
    ∧ s'.acknowledgmentAckd = s.acknowledgmentAckd
    ∧ s'.chans.length = s.chans.length
    ∧ (∀ u c, s.clients.get? u = some c → u ∈ R →
        s'.chans[c]? = (s.chans[c]?).map (fun ch => ch.push ev))
    ∧ (∀ i, (∀ u, s.clients.get? u = some i → u ∉ R) → s'.chans[i]? = s.chans[i]?)

/-- The heap of `s` with the channel registered for `u`, if any, closed. -/
def closeOld (s : NotificationService) (u : String) : Heap :=
  match s.clients.get? u with
  | none => s.chans
  | some c =>
    match s.chans[c]? with
    | none => s.chans
    | some ch => s.chans.set c { ch with closed := true }

/-- The state between the registration and the broadcast of `AddClient`. -/
def registered (s : NotificationService) (u : String) : NotificationService :=
  { s with
    chans := closeOld s u ++ [{ buf := [], cap := 10, closed := false }]
    clients := s.clients.set u s.chans.length }

/-- The state between the removal and the broadcast of `RemoveClient`. -/
def unregistered (s : NotificationService) (u : String) : NotificationService :=
  { s with chans := closeOld s u, clients := s.clients.delete u }

/-- One call of a public operation of the service, with the environment values it reads. -/
inductive Op where
  | addClient (username : String) (now : Time)
  | removeClient (username : String) (now : Time)
  | broadcastMessage (req : NotifyRequest) (id : String) (now now' : Time)
  | createAcknowledgmentRequest (fromUsername : String) (toUsernames : List String)
      (message : String) (requestID : String) (now now' : Time)
  | recordAcknowledgment (requestID : String) (fromUsername : String) (now : Time)
  deriving DecidableEq, Repr

/-- The state after one call; `none` when the call panics. -/
def step (marshal : Marshal) (s : NotificationService) : Op → Option NotificationService
  | .addClient username now => (AddClient marshal s username now).map Prod.snd
  | .removeClient username now => RemoveClient marshal s username now
  | .broadcastMessage req id now now' => BroadcastMessage marshal s req id now now'
  | .createAcknowledgmentRequest fromUsername toUsernames message requestID now now' =>
    (CreateAcknowledgmentRequest marshal s fromUsername toUsernames message requestID
      now now').map Prod.snd
  | .recordAcknowledgment requestID fromUsername now =>
    RecordAcknowledgment marshal s requestID fromUsername now

/-- The state after a sequence of calls, none of which is drained by a reader. -/
def run (marshal : Marshal) : NotificationService → List Op → Option NotificationService
  | s, [] => some s
  | s, op :: ops =>
    match step marshal s op with
    | none => none
    | some s' => run marshal s' ops

/-- The request table and the acknowledged-list table hold the same request ids. -/
def AckInv (s : NotificationService) : Prop :=
  ∀ id, (s.acknowledgmentReqs.get? id).isSome = (s.acknowledgmentAckd.get? id).isSome

/-- The request id generated by the call, if it generates one, is not yet recorded in `s`. -/
def Op.fresh (s : NotificationService) : Op → Prop
  | .createAcknowledgmentRequest _ _ _ requestID _ _ =>
    s.acknowledgmentReqs.get? requestID = none
  | _ => True

/-- The states reachable from `NewNotificationService` by calls of the public operations. -/
def Reachable (marshal : Marshal) (s : NotificationService) : Prop :=
  ∃ ops, run marshal NewNotificationService ops = some s

/-! ## Concrete states used in instances -/

/-- A store holding one session that expires at instant `5`. -/
def storeAtExpiry : SessionStore :=
  { sessions := [("s1", { ID := "s1", Username := "alice", CreatedAt := 0, ExpiresAt := 5 })] }

/-- A store holding a session that expired before instant `9` and one that did not. -/
def storeExpired : SessionStore :=
  { sessions := [("s1", { ID := "s1", Username := "alice", CreatedAt := 0, ExpiresAt := 5 }),
                 ("s2", { ID := "s2", Username := "bob", CreatedAt := 1, ExpiresAt := 20 })] }

/-- A randomness source whose bytes are all zero. -/
def zeroSource : Nat → Fin 256 :=
  fun _ => 0

/-- The session created for `alice` at instant `100` for 24 hours from `zeroSource`. -/
def aliceSession : Session :=
  { ID := hexEncodeToString ((List.range 32).map zeroSource), Username := "alice",
    CreatedAt := 100, ExpiresAt := 100 + 86400000000000 }

/-- The empty store after `aliceSession` was created in it. -/
def aliceStore : SessionStore :=
  { sessions := NewSessionStore.sessions.set aliceSession.ID aliceSession }

/-- A stand-in for the text of a payload in the instances below. -/
def payloadText : Payload → String
  | .notification p => p.From ++ ">" ++ p.Message
  | .userConnected p => p.Username
  | .userDisconnected p => p.Username
  | .acknowledgmentRequest p => p.ID
  | .acknowledgmentResponse p => p.RequestID ++ "<" ++ p.FromUsername

/-- A serialiser that always succeeds, used in the instances below in place of
`json.Marshal`: the event type followed by the text of the payload. -/
def demoMarshal : Marshal :=
  fun e => .ok (e.Type' ++ ":" ++ payloadText e.Payload)

/-- A state with `bob` connected, reached by one call. -/
def bobConnected : NotificationService :=
  { chans := [{ buf := ["user_connected:bob"], cap := 10, closed := false }]
    clients := [("bob", 0)]
    acknowledgmentReqs := []
    acknowledgmentAckd := [] }

/-- Calls after which the mailbox of `alice` holds ten events and the request `r1`
of `alice` is recorded. -/
def aliceFullOps : List Op :=
  .addClient "alice" 0
    :: .createAcknowledgmentRequest "alice" ["bob"] "ping" "r1" 1 1
    :: List.replicate 9
        (.broadcastMessage { FromUsername := "bob", Message := "hi", TargetUsername := "all" }
          "n" 2 2)

/-- The state after `aliceFullOps`. -/
def aliceFull : NotificationService :=
  { chans := [{ buf := "user_connected:alice" :: List.replicate 9 "notification:bob>hi"
                cap := 10
                closed := false }]
    clients := [("alice", 0)]
    acknowledgmentReqs :=
      [("r1", { ID := "r1", FromUsername := "alice", ToUsernames := ["bob"], Message := "ping",
                CreatedAt := 1 })]
    acknowledgmentAckd := [("r1", [])] }

/-- The state after `bob` connected and `alice` connected twice: channel `1` is the
superseded mailbox of `alice`, channel `2` her current one. -/
def aliceSuperseded : NotificationService :=
  { chans := [{ buf := ["user_connected:bob", "user_connected:alice", "user_connected:alice"]
                cap := 10
                closed := false },
              { buf := ["user_connected:alice"], cap := 10, closed := true },
              { buf := ["user_connected:alice"], cap := 10, closed := false }]
    clients := [("alice", 2), ("bob", 0)]
    acknowledgmentReqs := []
    acknowledgmentAckd := [] }

/-! ## Lemmas on Go maps -/

namespace GoMap

variable {V : Type}

theorem delete_cons_eq (rest : GoMap V) (k : String) (v : V) :
    delete ((k, v) :: rest) k = delete rest k := by
  simp [delete, List.filter_cons]

theorem delete_cons_ne (rest : GoMap V) {k k' : String} (v : V) (h : k' ≠ k) :
    delete ((k', v) :: rest) k = (k', v) :: delete rest k := by
  simp [delete, List.filter_cons, h]

theorem get?_cons_eq (rest : GoMap V) (k : String) (v : V) :
    get? ((k, v) :: rest) k = some v := by
  simp [get?]

theorem get?_cons_ne (rest : GoMap V) {k k' : String} (v : V) (h : k' ≠ k) :
    get? ((k', v) :: rest) k = get? rest k := by
  simp [get?, h]

theorem get?_delete_self (m : GoMap V) (k : String) : (m.delete k).get? k = none := by
  induction m with
  | nil => rfl
  | cons p rest ih =>
    obtain ⟨k', v⟩ := p
    by_cases h : k' = k
    · subst h
      rw [delete_cons_eq]
      exact ih
    · rw [delete_cons_ne rest v h, get?_cons_ne _ v h]
      exact ih

theorem get?_delete_ne (m : GoMap V) {k k' : String} (h : k' ≠ k) :
    (m.delete k).get? k' = m.get? k' := by
  induction m with
  | nil => rfl
  | cons p rest ih =>
    obtain ⟨k₁, v⟩ := p
    by_cases h₁ : k₁ = k
    · subst h₁
      rw [delete_cons_eq, get?_cons_ne rest v (Ne.symm h)]
      exact ih
    · rw [delete_cons_ne rest v h₁]
      by_cases h₂ : k₁ = k'
      · subst h₂
        rw [get?_cons_eq, get?_cons_eq]
      · rw [get?_cons_ne _ v h₂, get?_cons_ne _ v h₂]
        exact ih

theorem get?_set_self (m : GoMap V) (k : String) (v : V) : (m.set k v).get? k = some v :=
  get?_cons_eq _ k v

theorem get?_set_ne (m : GoMap V) {k k' : String} (v : V) (h : k' ≠ k) :
    (m.set k v).get? k' = m.get? k' := by
  unfold set
  rw [get?_cons_ne _ v (Ne.symm h)]
  exact get?_delete_ne m h

theorem delete_of_get?_none (m : GoMap V) (k : String) (h : m.get? k = none) :
    m.delete k = m := by
  induction m with
  | nil => rfl
  | cons p rest ih =>
    obtain ⟨k', v⟩ := p
    by_cases h₁ : k' = k
    · subst h₁
      rw [get?_cons_eq] at h
      cases h
    · rw [get?_cons_ne rest v h₁] at h
      rw [delete_cons_ne rest v h₁, ih h]

end GoMap

/-! ## The session store -/

/-- C1, as stated, fails: the session `s1` is present and the current time
equals its `ExpiresAt`, yet `GetSession` returns it as found. -/
theorem getSession_found_at_expiry_instant :
    storeAtExpiry.sessions.get? "s1"
        = some { ID := "s1", Username := "alice", CreatedAt := 0, ExpiresAt := 5 }
      ∧ ¬ ((5 : Time) < 5)
      ∧ (GetSession storeAtExpiry "s1" 5).1
        = some { ID := "s1", Username := "alice", CreatedAt := 0, ExpiresAt := 5 } := by
  decide

/-- C1, amended: `GetSession` returns a session as found exactly when the id is
present in the store with that session and `now ≤ ExpiresAt`; whenever the id is
present and `ExpiresAt < now` it returns not-found, and an absent id is not found. -/
theorem getSession_found_iff (st : SessionStore) (id : String) (now : Time) :
    (∀ sess, (GetSession st id now).1 = some sess
        ↔ st.sessions.get? id = some sess ∧ now ≤ sess.ExpiresAt)
      ∧ (∀ sess, st.sessions.get? id = some sess → sess.ExpiresAt < now →
          (GetSession st id now).1 = none)
      ∧ (st.sessions.get? id = none → (GetSession st id now).1 = none) := by
  refine ⟨fun sess => ?_, fun sess h hlt => ?_, fun h => ?_⟩
  · unfold GetSession
    cases hget : st.sessions.get? id with
    | none => simp
    | some s0 =>
      by_cases hexp : s0.ExpiresAt < now
      · simp only [hexp, if_true]
        constructor
        · intro h; cases h
        · rintro ⟨h, hle⟩
          cases h
          exact absurd hexp (not_lt.mpr hle)
      · simp only [hexp, if_false]
        constructor
        · intro h
          cases h
          exact ⟨rfl, not_lt.mp hexp⟩
        · rintro ⟨h, _⟩
          cases h
          rfl
  · simp [GetSession, h, hlt]
  · simp [GetSession, h]

/-- C2, as stated, fails at the instant `now = ExpiresAt`, where the spec counts the
session as expired: `GetSession` returns it as found, keeps the entry, and the
next `GetSession` still finds it. -/
theorem getSession_keeps_entry_at_expiry_instant :
    (storeAtExpiry.sessions.get? "s1").map (fun sess => decide (sess.ExpiresAt ≤ 5)) = some true
      ∧ (GetSession storeAtExpiry "s1" 5).1 ≠ none
      ∧ (GetSession storeAtExpiry "s1" 5).2.sessions.get? "s1" ≠ none
      ∧ (GetSession (GetSession storeAtExpiry "s1" 5).2 "s1" 5).1 ≠ none := by
  decide

/-- C2, amended: when the session of `id` is present and `ExpiresAt < now`,
`GetSession` returns not-found, the store afterwards has no entry for `id`, every
other entry is unchanged, and a later `GetSession` of `id` at any time returns
not-found. -/
theorem getSession_expired_deletes (st : SessionStore) (id : String) (now : Time)
    (sess : Session) (hpresent : st.sessions.get? id = some sess)
    (hexpired : sess.ExpiresAt < now) :
    (GetSession st id now).1 = none
      ∧ (GetSession st id now).2.sessions.get? id = none
      ∧ (∀ id', id' ≠ id →
          (GetSession st id now).2.sessions.get? id' = st.sessions.get? id')
      ∧ (∀ t, (GetSession (GetSession st id now).2 id t).1 = none) := by
  have hres : GetSession st id now = (none, { sessions := st.sessions.delete id }) := by
    simp [GetSession, hpresent, hexpired]
  rw [hres]
  refine ⟨rfl, GoMap.get?_delete_self _ _, fun id' h => GoMap.get?_delete_ne _ h, fun t => ?_⟩
  simp [GetSession, GoMap.get?_delete_self]

/-- Instance of `getSession_expired_deletes` on `storeExpired` at instant `9`. -/
theorem getSession_expired_deletes_witness :
    (GetSession storeExpired "s1" 9).1 = none
      ∧ (GetSession storeExpired "s1" 9).2.sessions.get? "s1" = none
      ∧ (∀ id', id' ≠ "s1" →
          (GetSession storeExpired "s1" 9).2.sessions.get? id' = storeExpired.sessions.get? id')
      ∧ (∀ t, (GetSession (GetSession storeExpired "s1" 9).2 "s1" t).1 = none) :=
  getSession_expired_deletes storeExpired "s1" 9
    { ID := "s1", Username := "alice", CreatedAt := 0, ExpiresAt := 5 } (by decide) (by decide)

/-- C3: if `CreateSession username d` with `0 < d` succeeds at time `t0` with
session `s`, then `GetSession s.ID` at any time `t` with `t0 ≤ t < t0 + d` finds
a session with the same id, the given username and `ExpiresAt = CreatedAt + d`,
which is unexpired at `t`; the lookup leaves the store as it is. -/
theorem createSession_then_getSession (st : SessionStore) (username : String)
    (d : Duration) (t0 t : Time) (rnd : RandRead)
    (s : Session) (st' : SessionStore) (_hd : 0 < d)
    (hcreate : CreateSession st username d t0 rnd = some (.ok s, st'))
    (_h0 : t0 ≤ t) (h1 : t < t0 + d) :
    ∃ s', GetSession st' s.ID t = (some s', st')
      ∧ s'.ID = s.ID ∧ s'.Username = username
      ∧ s'.ExpiresAt = s'.CreatedAt + d ∧ t < s'.ExpiresAt := by
  unfold CreateSession at hcreate
  cases hgen : generateSessionID rnd with
  | none => simp [hgen] at hcreate
  | some res =>
    cases res with
    | error err => simp [hgen] at hcreate
    | ok sessionID =>
      simp only [hgen, Option.some.injEq, Prod.mk.injEq, Except.ok.injEq] at hcreate
      obtain ⟨hs, hst⟩ := hcreate
      subst hs
      subst hst
      refine ⟨_, ?_, rfl, rfl, rfl, h1⟩
      have hnot : ¬ (t0 + d < t) := not_lt.mpr (le_of_lt h1)
      simp [GetSession, GoMap.get?_set_self, hnot]

/-- Instance of `createSession_then_getSession`: a 24-hour session created at
instant `100` in the empty store from 32 zero bytes, looked up at instant `100`. -/
theorem createSession_then_getSession_witness :
    ∃ s', GetSession aliceStore aliceSession.ID 100 = (some s', aliceStore)
      ∧ s'.ID = aliceSession.ID ∧ s'.Username = "alice"
      ∧ s'.ExpiresAt = s'.CreatedAt + 86400000000000 ∧ (100 : Time) < s'.ExpiresAt :=
  createSession_then_getSession NewSessionStore "alice" 86400000000000 100 100
    (.filled zeroSource) aliceSession aliceStore (by decide) rfl (by decide) (by decide)

/-! ## Channels and the send loop -/

theorem closeChan_of_open {h : Heap} {c : ChanId} {ch : Chan} (hc : h[c]? = some ch)
    (hopen : ch.closed = false) :
    closeChan h c = some (h.set c { ch with closed := true }) := by
  simp [closeChan, hc, hopen]

theorem set_of_getElem? {h : Heap} {c : ChanId} {ch : Chan} (hc : h[c]? = some ch) :
    h.set c ch = h := by
  apply List.ext_getElem?
  intro n
  by_cases hn : c = n
  · subst hn
    rw [List.getElem?_set_self', hc]
    rfl
  · rw [List.getElem?_set_ne hn]

theorem trySend_of_open {h : Heap} {c : ChanId} {ch : Chan} (x : String)
    (hc : h[c]? = some ch) (hopen : ch.closed = false) :
    trySend h c x = some (h.set c (ch.push x)) := by
  by_cases hroom : ch.buf.length < ch.cap
  · simp [trySend, hc, hopen, hroom, Chan.push]
  · simp [trySend, hc, hopen, hroom, Chan.push, set_of_getElem? hc]

theorem map_closed_eq_some_false {h : Heap} {c : ChanId}
    (hc : (h[c]?).map Chan.closed = some false) :
    ∃ ch, h[c]? = some ch ∧ ch.closed = false := by
  cases hget : h[c]? with
  | none => simp [hget] at hc
  | some ch =>
    refine ⟨ch, rfl, ?_⟩
    simpa [hget] using hc

/-- The send loop over a list of entries with pairwise distinct, open channels
succeeds; it pushes the event on the channel of each entry whose username is a
recipient and leaves every other channel of the heap as it is. -/
theorem sendLoop_spec (recipients : List String) (eventStr : String) :
    ∀ (l : List (String × ChanId)) (h : Heap),
      (l.map Prod.snd).Nodup →
      (∀ p ∈ l, (h[p.2]?).map Chan.closed = some false) →
      ∃ h', sendLoop recipients eventStr l h = some h'
        ∧ h'.length = h.length
        ∧ (∀ u c, (u, c) ∈ l → u ∈ recipients →
            h'[c]? = (h[c]?).map (fun ch => ch.push eventStr))
        ∧ (∀ i, (∀ u, (u, i) ∈ l → u ∉ recipients) → h'[i]? = h[i]?) := by
  intro l
  induction l with
  | nil =>
    intro h _ _
    exact ⟨h, rfl, rfl, fun u c hm => absurd hm (List.not_mem_nil _), fun i _ => rfl⟩
  | cons p rest ih =>
    obtain ⟨u0, c0⟩ := p
    intro h hnd hopen
    rw [List.map_cons, List.nodup_cons] at hnd
    obtain ⟨hc0, hnd'⟩ := hnd
    have hfresh : ∀ u, (u, c0) ∉ rest := fun u hm =>
      hc0 (List.mem_map.mpr ⟨(u, c0), hm, rfl⟩)
    by_cases hrec : u0 ∈ recipients
    · obtain ⟨ch0, hget0, hopen0⟩ :=
        map_closed_eq_some_false (hopen (u0, c0) (List.mem_cons_self _ _))
      have hsend := trySend_of_open eventStr hget0 hopen0
      have hother : ∀ i, i ≠ c0 → (h.set c0 (ch0.push eventStr))[i]? = h[i]? :=
        fun i hi => List.getElem?_set_ne (Ne.symm hi)
      have hopen' : ∀ p ∈ rest,
          ((h.set c0 (ch0.push eventStr))[p.2]?).map Chan.closed = some false := by
        intro p hp
        have hne : p.2 ≠ c0 := fun e => hfresh p.1 (by rw [← e]; exact hp)
        rw [hother _ hne]
        exact hopen p (List.mem_cons_of_mem _ hp)
      obtain ⟨h', hrun, hlen, hin, hout⟩ := ih _ hnd' hopen'
      refine ⟨h', ?_, ?_, ?_, ?_⟩
      · simp [sendLoop, hrec, hsend, hrun]
      · rw [hlen, List.length_set]
      · intro u c hm hu
        rcases List.mem_cons.mp hm with heq | hm'
        · obtain ⟨rfl, rfl⟩ := Prod.mk.inj heq
          rw [hout c (fun u' hu' => absurd hu' (hfresh u')), hget0]
          have hlt : c < h.length := (List.getElem?_eq_some_iff.mp hget0).1
          rw [List.getElem?_set_self hlt]
          rfl
        · have hne : c ≠ c0 := fun e => hfresh u (by rw [← e]; exact hm')
          rw [hin u c hm' hu, hother c hne]
      · intro i hi
        have hne : i ≠ c0 := fun e => hi u0 (by rw [e]; exact List.mem_cons_self _ _) hrec
        rw [hout i (fun u hu => hi u (List.mem_cons_of_mem _ hu)), hother i hne]
    · have hopen' : ∀ p ∈ rest, (h[p.2]?).map Chan.closed = some false :=
        fun p hp => hopen p (List.mem_cons_of_mem _ hp)
      obtain ⟨h', hrun, hlen, hin, hout⟩ := ih h hnd' hopen'
      refine ⟨h', ?_, hlen, ?_, ?_⟩
      · simp [sendLoop, hrec, hrun]
      · intro u c hm hu
        rcases List.mem_cons.mp hm with heq | hm'
        · obtain ⟨rfl, rfl⟩ := Prod.mk.inj heq
          exact absurd hu hrec
        · exact hin u c hm' hu
      · intro i hi
        exact hout i (fun u hu => hi u (List.mem_cons_of_mem _ hu))

/-! ## Registry lemmas -/

namespace GoMap

variable {V : Type}

theorem mem_of_get? {m : GoMap V} {k : String} {v : V} (h : m.get? k = some v) :
    (k, v) ∈ m := by
  induction m with
  | nil => cases h
  | cons p rest ih =>
    obtain ⟨k', v'⟩ := p
    by_cases hk : k' = k
    · subst hk
      rw [get?_cons_eq] at h
      cases h
      exact List.mem_cons_self _ _
    · rw [get?_cons_ne rest v' hk] at h
      exact List.mem_cons_of_mem _ (ih h)

theorem get?_of_mem {m : GoMap V} {k : String} {v : V} (hnd : m.keys.Nodup)
    (h : (k, v) ∈ m) : m.get? k = some v := by
  induction m with
  | nil => cases h
  | cons p rest ih =>
    obtain ⟨k', v'⟩ := p
    simp only [keys, List.map_cons, List.nodup_cons] at hnd
    rcases List.mem_cons.mp h with heq | hm
    · obtain ⟨rfl, rfl⟩ := Prod.mk.inj heq
      exact get?_cons_eq _ _ _
    · have hk : k' ≠ k := fun e => hnd.1 (List.mem_map.mpr ⟨(k, v), hm, e.symm⟩)
      rw [get?_cons_ne rest v' hk]
      exact ih hnd.2 hm

theorem get?_eq_none_iff {m : GoMap V} {k : String} : m.get? k = none ↔ k ∉ m.keys := by
  induction m with
  | nil => simp [get?, keys]
  | cons p rest ih =>
    obtain ⟨k', v'⟩ := p
    by_cases hk : k' = k
    · subst hk
      simp [get?_cons_eq, keys]
    · rw [get?_cons_ne rest v' hk, ih]
      simp only [keys, List.map_cons, List.mem_cons, not_or]
      exact ⟨fun h => ⟨fun e => hk e.symm, h⟩, fun h => h.2⟩

theorem mem_keys_iff {m : GoMap V} {k : String} : k ∈ m.keys ↔ (m.get? k).isSome = true := by
  cases hget : m.get? k with
  | none => simpa using get?_eq_none_iff.mp hget
  | some v =>
    simp only [Option.isSome_some, iff_true]
    exact List.mem_map.mpr ⟨(k, v), mem_of_get? hget, rfl⟩

theorem mem_delete {m : GoMap V} {k : String} {p : String × V} :
    p ∈ m.delete k ↔ p ∈ m ∧ p.1 ≠ k := by
  simp [delete, List.mem_filter]

theorem keys_delete_nodup {m : GoMap V} (k : String) (hnd : m.keys.Nodup) :
    (m.delete k).keys.Nodup := by
  unfold keys delete
  exact (List.filter_sublist _).map Prod.fst |>.nodup hnd

theorem not_mem_keys_delete (m : GoMap V) (k : String) : k ∉ (m.delete k).keys :=
  get?_eq_none_iff.mp (get?_delete_self m k)

theorem keys_set_nodup {m : GoMap V} (k : String) (v : V) (hnd : m.keys.Nodup) :
    (m.set k v).keys.Nodup := by
  have h1 := keys_delete_nodup k hnd
  have h2 := not_mem_keys_delete m k
  simp only [set, keys, List.map_cons, List.nodup_cons]
  exact ⟨h2, h1⟩

theorem values_delete_nodup {m : GoMap V} (k : String) (hnd : (m.map Prod.snd).Nodup) :
    ((m.delete k).map Prod.snd).Nodup := by
  unfold delete
  exact (List.filter_sublist _).map Prod.snd |>.nodup hnd

theorem key_unique_of_values_nodup {m : GoMap V} (hnd : (m.map Prod.snd).Nodup)
    {k k' : String} {v : V} (h : (k, v) ∈ m) (h' : (k', v) ∈ m) : k = k' := by
  induction m with
  | nil => cases h
  | cons p rest ih =>
    rw [List.map_cons, List.nodup_cons] at hnd
    rcases List.mem_cons.mp h with heq | hm
    · rcases List.mem_cons.mp h' with heq' | hm'
      · rw [← heq'] at heq
        exact (Prod.mk.inj heq).1
      · exact absurd (List.mem_map.mpr ⟨(k', v), hm', by rw [← heq]⟩) hnd.1
    · rcases List.mem_cons.mp h' with heq' | hm'
      · exact absurd (List.mem_map.mpr ⟨(k, v), hm, by rw [← heq']⟩) hnd.1
      · exact ih hnd.2 hm hm'

end GoMap

theorem mem_recipientsOf_nil (clients : GoMap ChanId) (u : String) :
    u ∈ recipientsOf clients [] ↔ (clients.get? u).isSome = true := by
  simp [recipientsOf, GoMap.mem_keys_iff]

theorem mem_recipientsOf_cons (clients : GoMap ChanId) (t : String) (ts : List String)
    (u : String) :
    u ∈ recipientsOf clients (t :: ts) ↔ u ∈ t :: ts ∧ (clients.get? u).isSome = true := by
  simp [recipientsOf, List.mem_filter]

/-! ## The broadcast -/

theorem Chan.push_closed (ch : Chan) (x : String) : (ch.push x).closed = ch.closed := by
  unfold Chan.push
  split <;> rfl

theorem Chan.push_cap (ch : Chan) (x : String) : (ch.push x).cap = ch.cap := by
  unfold Chan.push
  split <;> rfl

theorem Chan.push_length_le (ch : Chan) (x : String) (h : ch.buf.length ≤ ch.cap) :
    (ch.push x).buf.length ≤ ch.cap := by
  unfold Chan.push
  split
  · simp only [List.length_append, List.length_singleton]
    omega
  · exact h

theorem Chan.push_of_room (ch : Chan) (x : String) (h : ch.buf.length < ch.cap) :
    ch.push x = { ch with buf := ch.buf ++ [x] } := by
  simp [Chan.push, h]

theorem Chan.push_of_full (ch : Chan) (x : String) (h : ch.cap ≤ ch.buf.length) :
    ch.push x = ch := by
  simp [Chan.push, Nat.not_lt.mpr h]

/-- In a state delivered to, every channel is as before or was pushed on. -/
theorem Delivers.cases {s s' : NotificationService} {R : List String} {ev : String}
    (hd : Delivers s s' R ev) (i : ChanId) :
    s'.chans[i]? = s.chans[i]? ∨ s'.chans[i]? = (s.chans[i]?).map (fun ch => ch.push ev) := by
  obtain ⟨_, _, _, _, hin, hout⟩ := hd
  by_cases h : ∃ u, s.clients.get? u = some i ∧ u ∈ R
  · obtain ⟨u, hu, hr⟩ := h
    exact Or.inr (hin u i hu hr)
  · exact Or.inl (hout i (fun u hu hr => h ⟨u, hu, hr⟩))

/-- Delivery keeps the invariant. -/
theorem Delivers.preserves_wf {s s' : NotificationService} {R : List String} {ev : String}
    (hd : Delivers s s' R ev) (hwf : WF s) : WF s' := by
  have hcases := hd.cases
  obtain ⟨hcl, _, _, _, _, _⟩ := hd
  obtain ⟨hk, hv, hopen, hbound⟩ := hwf
  refine ⟨by rw [hcl]; exact hk, by rw [hcl]; exact hv, ?_, ?_⟩
  · intro p hp
    rw [hcl] at hp
    have h0 := hopen p hp
    rcases hcases p.2 with h | h
    · rw [h]; exact h0
    · rw [h]
      obtain ⟨ch, hget, hcl0⟩ := map_closed_eq_some_false h0
      simp [hget, Chan.push_closed, hcl0]
  · intro ch hch
    obtain ⟨i, hi⟩ := List.mem_iff_getElem?.mp hch
    rcases hcases i with h | h
    · rw [h] at hi
      exact hbound ch (List.mem_iff_getElem?.mpr ⟨i, hi⟩)
    · rw [h] at hi
      cases hget : s.chans[i]? with
      | none => simp [hget] at hi
      | some ch0 =>
        simp only [hget, Option.map_some', Option.some.injEq] at hi
        have hb := hbound ch0 (List.mem_iff_getElem?.mpr ⟨i, hget⟩)
        subst hi
        rw [Chan.push_cap]
        exact ⟨hb.1, Chan.push_length_le ch0 ev hb.2⟩

/-- In a well-formed state `broadcastEventLocked` does not panic.  When the event
serialises to `ev` it delivers `ev` to the recipient set; when serialisation
fails the state is unchanged. -/
theorem broadcastEventLocked_spec (marshal : Marshal) (s : NotificationService)
    (eventType : EventType) (payload : Payload) (now : Time) (targetUsers : List String)
    (hwf : WF s) :
    ∃ s', broadcastEventLocked marshal s eventType payload now targetUsers = some s'
      ∧ (∀ ev, marshal { Type' := eventType, Payload := payload, Timestamp := now } = .ok ev →
          Delivers s s' (recipientsOf s.clients targetUsers) ev)
      ∧ (∀ err, marshal { Type' := eventType, Payload := payload, Timestamp := now }
          = .error err → s' = s) := by
  obtain ⟨hk, hv, hopen, _⟩ := hwf
  cases hm : marshal { Type' := eventType, Payload := payload, Timestamp := now } with
  | error err =>
    refine ⟨s, by simp [broadcastEventLocked, hm], ?_, fun _ _ => rfl⟩
    intro ev hev
    cases hev
  | ok eventStr =>
    obtain ⟨h', hrun, hlen, hin, hout⟩ :=
      sendLoop_spec (recipientsOf s.clients targetUsers) eventStr s.clients s.chans hv hopen
    refine ⟨{ s with chans := h' }, by simp [broadcastEventLocked, hm, hrun], ?_, ?_⟩
    · intro ev hev
      cases hev
      refine ⟨rfl, rfl, rfl, hlen, ?_, ?_⟩
      · intro u c hu hr
        exact hin u c (GoMap.mem_of_get? hu) hr
      · intro i hi
        exact hout i (fun u hu => hi u (GoMap.get?_of_mem hk hu))
    · intro err herr
      cases herr

/-- In a well-formed state `broadcastEventLocked` keeps the registry, the
acknowledgment tables, the number of channels and the invariant. -/
theorem broadcastEventLocked_frame (marshal : Marshal) (s s' : NotificationService)
    (eventType : EventType) (payload : Payload) (now : Time) (targetUsers : List String)
    (hwf : WF s)
    (hrun : broadcastEventLocked marshal s eventType payload now targetUsers = some s') :
    s'.clients = s.clients ∧ s'.acknowledgmentReqs = s.acknowledgmentReqs
      ∧ s'.acknowledgmentAckd = s.acknowledgmentAckd ∧ WF s' := by
  obtain ⟨s'', hrun', hok, herr⟩ :=
    broadcastEventLocked_spec marshal s eventType payload now targetUsers hwf
  rw [hrun] at hrun'
  cases hrun'
  cases hm : marshal { Type' := eventType, Payload := payload, Timestamp := now } with
  | error err =>
    rw [herr err hm]
    exact ⟨rfl, rfl, rfl, hwf⟩
  | ok ev =>
    have hd := hok ev hm
    exact ⟨hd.1, hd.2.1, hd.2.2.1, hd.preserves_wf hwf⟩

/-! ## Registration and removal -/

/-- A registered channel of a well-formed state is allocated and open. -/
theorem WF.registered_open {s : NotificationService} (hwf : WF s) {u : String} {c : ChanId}
    (hget : s.clients.get? u = some c) :
    ∃ ch, s.chans[c]? = some ch ∧ ch.closed = false :=
  map_closed_eq_some_false (hwf.2.2.1 (u, c) (GoMap.mem_of_get? hget))

/-- Two usernames of a well-formed state never share a channel. -/
theorem WF.chan_injective {s : NotificationService} (hwf : WF s) {u u' : String} {c : ChanId}
    (h : s.clients.get? u = some c) (h' : s.clients.get? u' = some c) : u = u' :=
  GoMap.key_unique_of_values_nodup hwf.2.1 (GoMap.mem_of_get? h) (GoMap.mem_of_get? h')

/-- The heap after the optional `close` of the old channel of `u`. -/
theorem closeOld_facts {s : NotificationService} (hwf : WF s) {u : String} {c0 : ChanId}
    {ch0 : Chan} (hget : s.clients.get? u = some c0) (hch : s.chans[c0]? = some ch0) :
    (s.chans.set c0 { ch0 with closed := true }).length = s.chans.length
      ∧ (∀ i, s.clients.get? u ≠ some i →
          (s.chans.set c0 { ch0 with closed := true })[i]? = s.chans[i]?)
      ∧ (∀ ch ∈ s.chans.set c0 { ch0 with closed := true },
          ch.cap = 10 ∧ ch.buf.length ≤ ch.cap) := by
  refine ⟨List.length_set _ _ _, ?_, ?_⟩
  · intro i hi
    have hne : c0 ≠ i := fun e => hi (e ▸ hget)
    exact List.getElem?_set_ne hne
  · intro ch hmem
    rcases List.mem_or_eq_of_mem_set hmem with h | h
    · exact hwf.2.2.2 ch h
    · subst h
      exact hwf.2.2.2 ch0 (List.mem_iff_getElem?.mpr ⟨c0, hch⟩)

/-- Registering a fresh channel for `u` keeps the invariant. -/
theorem wf_register {s : NotificationService} (hwf : WF s) (u : String) (h : Heap)
    (hlen : h.length = s.chans.length)
    (hsame : ∀ i, s.clients.get? u ≠ some i → h[i]? = s.chans[i]?)
    (hbound : ∀ ch ∈ h, ch.cap = 10 ∧ ch.buf.length ≤ ch.cap) :
    WF { s with
      chans := h ++ [{ buf := [], cap := 10, closed := false }]
      clients := s.clients.set u h.length } := by
  obtain ⟨hk, hv, hopen, _⟩ := hwf
  have hlt : ∀ p ∈ s.clients, p.2 < s.chans.length := by
    intro p hp
    obtain ⟨ch, hch, _⟩ := map_closed_eq_some_false (hopen p hp)
    exact (List.getElem?_eq_some_iff.mp hch).1
  refine ⟨GoMap.keys_set_nodup u _ hk, ?_, ?_, ?_⟩
  · show (List.map Prod.snd ((u, h.length) :: s.clients.delete u)).Nodup
    rw [List.map_cons, List.nodup_cons]
    refine ⟨?_, GoMap.values_delete_nodup u hv⟩
    intro hmem
    obtain ⟨p, hp, hp2⟩ := List.mem_map.mp hmem
    have hlt' := hlt p (GoMap.mem_delete.mp hp).1
    have hp2' : p.2 = h.length := hp2
    rw [hp2', hlen] at hlt'
    exact lt_irrefl _ hlt'
  · intro p hp
    show (((h ++ [{ buf := [], cap := 10, closed := false }] : Heap)[p.2]?).map Chan.closed)
      = some false
    rcases List.mem_cons.mp hp with heq | hp'
    · subst heq
      simp
    · obtain ⟨hp1, hpu⟩ := GoMap.mem_delete.mp hp'
      have hlt' : p.2 < h.length := by rw [hlen]; exact hlt p hp1
      rw [List.getElem?_append_left hlt']
      have hne : s.clients.get? u ≠ some p.2 := by
        intro hget
        exact hpu (GoMap.key_unique_of_values_nodup hv hp1 (GoMap.mem_of_get? hget))
      rw [hsame p.2 hne]
      exact hopen p hp1
  · intro ch hch
    rcases List.mem_append.mp hch with hm | hm
    · exact hbound ch hm
    · rw [List.mem_singleton] at hm
      subst hm
      exact ⟨rfl, Nat.zero_le _⟩

/-- Removing the entry of `u` keeps the invariant. -/
theorem wf_unregister {s : NotificationService} (hwf : WF s) (u : String) (h : Heap)
    (hsame : ∀ i, s.clients.get? u ≠ some i → h[i]? = s.chans[i]?)
    (hbound : ∀ ch ∈ h, ch.cap = 10 ∧ ch.buf.length ≤ ch.cap) :
    WF { s with chans := h, clients := s.clients.delete u } := by
  obtain ⟨hk, hv, hopen, _⟩ := hwf
  refine ⟨GoMap.keys_delete_nodup u hk, GoMap.values_delete_nodup u hv, ?_, hbound⟩
  intro p hp
  obtain ⟨hp1, hpu⟩ := GoMap.mem_delete.mp hp
  have hne : s.clients.get? u ≠ some p.2 := by
    intro hget
    exact hpu (GoMap.key_unique_of_values_nodup hv hp1 (GoMap.mem_of_get? hget))
  show ((h[p.2]?).map Chan.closed) = some false
  rw [hsame p.2 hne]
  exact hopen p hp1

theorem closeOld_length (s : NotificationService) (u : String) :
    (closeOld s u).length = s.chans.length := by
  unfold closeOld
  split
  · rfl
  · split
    · rfl
    · exact List.length_set _ _ _

theorem closeOld_same {s : NotificationService} (hwf : WF s) (u : String) (i : ChanId)
    (hi : s.clients.get? u ≠ some i) : (closeOld s u)[i]? = s.chans[i]? := by
  unfold closeOld
  cases hget : s.clients.get? u with
  | none => rfl
  | some c0 =>
    obtain ⟨ch0, hch, _⟩ := hwf.registered_open hget
    simp only [hch]
    exact (closeOld_facts hwf hget hch).2.1 i (by rw [hget]; exact fun e => hi (hget ▸ e))

theorem closeOld_closed {s : NotificationService} (hwf : WF s) {u : String} {c0 : ChanId}
    (hget : s.clients.get? u = some c0) :
    (closeOld s u)[c0]? = (s.chans[c0]?).map (fun ch => { ch with closed := true }) := by
  obtain ⟨ch0, hch, _⟩ := hwf.registered_open hget
  have hlt : c0 < s.chans.length := (List.getElem?_eq_some_iff.mp hch).1
  simp [closeOld, hget, hch, List.getElem?_set_self hlt]

theorem closeOld_bound {s : NotificationService} (hwf : WF s) (u : String) :
    ∀ ch ∈ closeOld s u, ch.cap = 10 ∧ ch.buf.length ≤ ch.cap := by
  unfold closeOld
  cases hget : s.clients.get? u with
  | none => exact hwf.2.2.2
  | some c0 =>
    obtain ⟨ch0, hch, _⟩ := hwf.registered_open hget
    simp only [hch]
    exact (closeOld_facts hwf hget hch).2.2

theorem wf_registered {s : NotificationService} (hwf : WF s) (u : String) :
    WF (registered s u) := by
  have := wf_register hwf u (closeOld s u) (closeOld_length s u)
    (fun i hi => closeOld_same hwf u i hi) (closeOld_bound hwf u)
  rw [closeOld_length] at this
  exact this

theorem wf_unregistered {s : NotificationService} (hwf : WF s) (u : String) :
    WF (unregistered s u) :=
  wf_unregister hwf u (closeOld s u) (fun i hi => closeOld_same hwf u i hi)
    (closeOld_bound hwf u)

/-- In a well-formed state `AddClient` is the registration followed by the broadcast,
and returns the fresh channel. -/
theorem AddClient_eq (marshal : Marshal) {s : NotificationService} (hwf : WF s)
    (u : String) (now : Time) :
    AddClient marshal s u now
      = (broadcastEventLocked marshal (registered s u) EventTypeUserConnected
          (.userConnected { Username := u }) now []).map (fun s' => (s.chans.length, s')) := by
  cases hget : s.clients.get? u with
  | none =>
    simp only [AddClient, hget, makeChan, registered, closeOld]
    cases broadcastEventLocked marshal _ EventTypeUserConnected
      (.userConnected { Username := u }) now [] <;> rfl
  | some c0 =>
    obtain ⟨ch0, hch, hopen⟩ := hwf.registered_open hget
    simp only [AddClient, hget, closeChan_of_open hch hopen, makeChan, registered, closeOld, hch,
      List.length_set]
    cases broadcastEventLocked marshal _ EventTypeUserConnected
      (.userConnected { Username := u }) now [] <;> rfl

/-- In a well-formed state `RemoveClient` of a registered user is the removal
followed by the broadcast. -/
theorem RemoveClient_eq (marshal : Marshal) {s : NotificationService} (hwf : WF s)
    {u : String} {c0 : ChanId} (hget : s.clients.get? u = some c0) (now : Time) :
    RemoveClient marshal s u now
      = broadcastEventLocked marshal (unregistered s u) EventTypeUserDisconnected
          (.userDisconnected { Username := u }) now [] := by
  obtain ⟨ch0, hch, hopen⟩ := hwf.registered_open hget
  simp only [RemoveClient, hget, closeChan_of_open hch hopen, unregistered, closeOld, hch]

/-! ## The invariant holds in every reachable state -/

theorem WF.of_eq {s s' : NotificationService} (hwf : WF s) (hch : s'.chans = s.chans)
    (hcl : s'.clients = s.clients) : WF s' := by
  unfold WF at hwf ⊢
  rw [hch, hcl]
  exact hwf

theorem wf_new : WF NewNotificationService := by
  decide

/-- In a well-formed state the broadcast returns a well-formed state. -/
theorem broadcastEventLocked_total (marshal : Marshal) {s : NotificationService} (hwf : WF s)
    (eventType : EventType) (payload : Payload) (now : Time) (targetUsers : List String) :
    ∃ s', broadcastEventLocked marshal s eventType payload now targetUsers = some s'
      ∧ WF s' := by
  obtain ⟨s', hrun, _, _⟩ :=
    broadcastEventLocked_spec marshal s eventType payload now targetUsers hwf
  exact ⟨s', hrun,
    (broadcastEventLocked_frame marshal s s' eventType payload now targetUsers hwf hrun).2.2.2⟩

/-- In a well-formed state no call panics, and the state after it is well-formed. -/
theorem step_wf (marshal : Marshal) {s : NotificationService} (hwf : WF s) (op : Op) :
    ∃ s', step marshal s op = some s' ∧ WF s' := by
  cases op with
  | addClient username now =>
    obtain ⟨s', hrun, hwf'⟩ := broadcastEventLocked_total marshal (wf_registered hwf username)
      EventTypeUserConnected (.userConnected { Username := username }) now []
    exact ⟨s', by simp [step, AddClient_eq marshal hwf, hrun], hwf'⟩
  | removeClient username now =>
    cases hget : s.clients.get? username with
    | none => exact ⟨s, by simp [step, RemoveClient, hget], hwf⟩
    | some c0 =>
      obtain ⟨s', hrun, hwf'⟩ := broadcastEventLocked_total marshal
        (wf_unregistered hwf username) EventTypeUserDisconnected
        (.userDisconnected { Username := username }) now []
      exact ⟨s', by simp [step, RemoveClient_eq marshal hwf hget, hrun], hwf'⟩
  | broadcastMessage req id now now' =>
    by_cases hall : req.TargetUsername = "all"
    · obtain ⟨s', hrun, hwf'⟩ := broadcastEventLocked_total marshal hwf EventTypeNotification
        (.notification
          { Id := id, From := req.FromUsername, Message := req.Message, Timestamp := now })
        now' []
      exact ⟨s', by simp [step, BroadcastMessage, hall, hrun], hwf'⟩
    · obtain ⟨s', hrun, hwf'⟩ := broadcastEventLocked_total marshal hwf EventTypeNotification
        (.notification
          { Id := id, From := req.FromUsername, Message := req.Message, Timestamp := now })
        now' [req.TargetUsername]
      exact ⟨s', by simp [step, BroadcastMessage, hall, hrun], hwf'⟩
  | createAcknowledgmentRequest fromUsername toUsernames message requestID now now' =>
    have hwf1 : WF { s with
        acknowledgmentReqs := s.acknowledgmentReqs.set requestID
          { ID := requestID, FromUsername := fromUsername, ToUsernames := toUsernames,
            Message := message, CreatedAt := now }
        acknowledgmentAckd := s.acknowledgmentAckd.set requestID [] } := hwf.of_eq rfl rfl
    obtain ⟨s', hrun, hwf'⟩ := broadcastEventLocked_total marshal hwf1
      EventTypeAcknowledgmentRequest
      (.acknowledgmentRequest
        { ID := requestID, FromUsername := fromUsername, ToUsernames := toUsernames,
          Message := message })
      now' toUsernames
    exact ⟨s', by simp [step, CreateAcknowledgmentRequest, hrun], hwf'⟩
  | recordAcknowledgment requestID fromUsername now =>
    cases hget : s.acknowledgmentReqs.get? requestID with
    | none => exact ⟨s, by simp [step, RecordAcknowledgment, hget], hwf⟩
    | some req =>
      have hwf1 : WF { s with
          acknowledgmentAckd := s.acknowledgmentAckd.set requestID
            ((s.acknowledgmentAckd.get? requestID).getD [] ++ [fromUsername]) } :=
        hwf.of_eq rfl rfl
      obtain ⟨s', hrun, hwf'⟩ := broadcastEventLocked_total marshal hwf1
        EventTypeAcknowledgmentResponse
        (.acknowledgmentResponse { RequestID := requestID, FromUsername := fromUsername })
        now [req.FromUsername]
      exact ⟨s', by simp [step, RecordAcknowledgment, hget, hrun], hwf'⟩

theorem run_wf (marshal : Marshal) (ops : List Op) :
    ∀ {s : NotificationService}, WF s → ∃ s', run marshal s ops = some s' ∧ WF s' := by
  induction ops with
  | nil => exact fun hwf => ⟨_, rfl, hwf⟩
  | cons op ops ih =>
    intro s hwf
    obtain ⟨s1, hstep, hwf1⟩ := step_wf marshal hwf op
    obtain ⟨s', hrun, hwf'⟩ := ih hwf1
    exact ⟨s', by simp [run, hstep, hrun], hwf'⟩

/-- Every reachable state is well-formed. -/
theorem Reachable.wellFormed {marshal : Marshal} {s : NotificationService}
    (h : Reachable marshal s) : WF s := by
  obtain ⟨ops, hrun⟩ := h
  obtain ⟨s', hrun', hwf⟩ := run_wf marshal ops wf_new
  rw [hrun] at hrun'
  cases hrun'
  exact hwf

/-! ## Effect of a broadcast on mailboxes -/

/-- A broadcast in a well-formed state leaves every channel that is not the
mailbox of a recipient as it is, whether or not the event serialises. -/
theorem broadcastEventLocked_outside (marshal : Marshal) {s s' : NotificationService}
    (hwf : WF s) {eventType : EventType} {payload : Payload} {now : Time}
    {targetUsers : List String}
    (hrun : broadcastEventLocked marshal s eventType payload now targetUsers = some s')
    (i : ChanId)
    (hi : ∀ u, s.clients.get? u = some i → u ∉ recipientsOf s.clients targetUsers) :
    s'.chans[i]? = s.chans[i]? := by
  obtain ⟨s'', hrun', hok, herr⟩ :=
    broadcastEventLocked_spec marshal s eventType payload now targetUsers hwf
  rw [hrun] at hrun'
  cases hrun'
  cases hm : marshal { Type' := eventType, Payload := payload, Timestamp := now } with
  | error err => rw [herr err hm]
  | ok ev => exact (hok ev hm).2.2.2.2.2 i hi

/-- A broadcast in a well-formed state leaves the mailbox of every user outside
the recipient set as it is. -/
theorem mailbox_broadcast_of_not_mem (marshal : Marshal) {s s' : NotificationService}
    (hwf : WF s) {eventType : EventType} {payload : Payload} {now : Time}
    {targetUsers : List String}
    (hrun : broadcastEventLocked marshal s eventType payload now targetUsers = some s')
    (u : String) (hu : u ∉ recipientsOf s.clients targetUsers) :
    mailbox s' u = mailbox s u := by
  have hcl := (broadcastEventLocked_frame marshal s s' eventType payload now targetUsers
    hwf hrun).1
  unfold mailbox
  rw [hcl]
  cases hget : s.clients.get? u with
  | none => rfl
  | some c =>
    refine broadcastEventLocked_outside marshal hwf hrun c ?_
    intro u' hu'
    rw [← hwf.chan_injective hget hu']
    exact hu

/-- A broadcast in a well-formed state whose event serialises to `ev` pushes `ev`
on the mailbox of every recipient. -/
theorem mailbox_broadcast_of_mem (marshal : Marshal) {s s' : NotificationService}
    (hwf : WF s) {eventType : EventType} {payload : Payload} {now : Time}
    {targetUsers : List String}
    (hrun : broadcastEventLocked marshal s eventType payload now targetUsers = some s')
    {ev : String}
    (hev : marshal { Type' := eventType, Payload := payload, Timestamp := now } = .ok ev)
    (u : String) (hu : u ∈ recipientsOf s.clients targetUsers) :
    mailbox s' u = (mailbox s u).map (fun ch => ch.push ev) := by
  obtain ⟨s'', hrun', hok, _⟩ :=
    broadcastEventLocked_spec marshal s eventType payload now targetUsers hwf
  rw [hrun] at hrun'
  cases hrun'
  obtain ⟨hcl, _, _, _, hin, _⟩ := hok ev hev
  unfold mailbox
  rw [hcl]
  cases hget : s.clients.get? u with
  | none => rfl
  | some c => exact hin u c hget hu

theorem mailbox_eq_some {s : NotificationService} {u : String} {ch : Chan}
    (h : mailbox s u = some ch) : ∃ c, s.clients.get? u = some c ∧ s.chans[c]? = some ch := by
  unfold mailbox at h
  cases hget : s.clients.get? u with
  | none => simp [hget] at h
  | some c =>
    rw [hget] at h
    exact ⟨c, rfl, h⟩

theorem state_ext {s s' : NotificationService} (h1 : s'.chans = s.chans)
    (h2 : s'.clients = s.clients) (h3 : s'.acknowledgmentReqs = s.acknowledgmentReqs)
    (h4 : s'.acknowledgmentAckd = s.acknowledgmentAckd) : s' = s := by
  cases s
  cases s'
  simp only at h1 h2 h3 h4
  simp [h1, h2, h3, h4]

/-- A broadcast in a well-formed state whose recipient set is empty changes nothing. -/
theorem broadcastEventLocked_no_recipient (marshal : Marshal) {s s' : NotificationService}
    (hwf : WF s) {eventType : EventType} {payload : Payload} {now : Time}
    {targetUsers : List String}
    (hrun : broadcastEventLocked marshal s eventType payload now targetUsers = some s')
    (hnone : ∀ u, u ∉ recipientsOf s.clients targetUsers) : s' = s := by
  obtain ⟨h2, h3, h4, _⟩ :=
    broadcastEventLocked_frame marshal s s' eventType payload now targetUsers hwf hrun
  refine state_ext ?_ h2 h3 h4
  apply List.ext_getElem?
  intro i
  exact broadcastEventLocked_outside marshal hwf hrun i (fun u _ => hnone u)

/-! ## The notification service -/

/-- C4: in a well-formed state, `AddClient u` followed by `AddClient u` does not
panic and leaves exactly one registry entry for `u`; the entry holds the channel
returned by the second call, which is open; the channel returned by the first
call is a different one and is closed; the entries of all other usernames are
those of the initial state. -/
theorem addClient_twice (marshal : Marshal) (s : NotificationService) (u : String)
    (now now' : Time) (hwf : WF s) :
    ∃ ch1 s1 ch2 s2,
      AddClient marshal s u now = some (ch1, s1)
        ∧ AddClient marshal s1 u now' = some (ch2, s2)
        ∧ s2.clients.get? u = some ch2
        ∧ (GetConnectedUsers s2).count u = 1
        ∧ ch1 ≠ ch2
        ∧ (s2.chans[ch1]?).map Chan.closed = some true
        ∧ (s2.chans[ch2]?).map Chan.closed = some false
        ∧ (∀ v, v ≠ u → s2.clients.get? v = s.clients.get? v) := by
  obtain ⟨s1, hrun1, hwf1⟩ := broadcastEventLocked_total marshal (wf_registered hwf u)
    EventTypeUserConnected (.userConnected { Username := u }) now []
  have hcl1 : s1.clients = s.clients.set u s.chans.length :=
    (broadcastEventLocked_frame marshal _ s1 _ _ _ _ (wf_registered hwf u) hrun1).1
  have hadd1 : AddClient marshal s u now = some (s.chans.length, s1) := by
    rw [AddClient_eq marshal hwf, hrun1]
    rfl
  obtain ⟨s2, hrun2, hwf2⟩ := broadcastEventLocked_total marshal (wf_registered hwf1 u)
    EventTypeUserConnected (.userConnected { Username := u }) now' []
  have hcl2 : s2.clients = s1.clients.set u s1.chans.length :=
    (broadcastEventLocked_frame marshal _ s2 _ _ _ _ (wf_registered hwf1 u) hrun2).1
  have hadd2 : AddClient marshal s1 u now' = some (s1.chans.length, s2) := by
    rw [AddClient_eq marshal hwf1, hrun2]
    rfl
  have hget1 : s1.clients.get? u = some s.chans.length := by
    rw [hcl1]
    exact GoMap.get?_set_self _ _ _
  have hget2 : s2.clients.get? u = some s1.chans.length := by
    rw [hcl2]
    exact GoMap.get?_set_self _ _ _
  obtain ⟨ch, hch, _⟩ := hwf1.registered_open hget1
  have hlt : s.chans.length < s1.chans.length := (List.getElem?_eq_some_iff.mp hch).1
  refine ⟨s.chans.length, s1, s1.chans.length, s2, hadd1, hadd2, hget2, ?_, Nat.ne_of_lt hlt,
    ?_, ?_, ?_⟩
  · apply List.count_eq_one_of_mem hwf2.1
    show u ∈ s2.clients.keys
    rw [GoMap.mem_keys_iff, hget2]
    rfl
  · have hout : s2.chans[s.chans.length]? = (registered s1 u).chans[s.chans.length]? := by
      refine broadcastEventLocked_outside marshal (wf_registered hwf1 u) hrun2 _ ?_
      intro v hv
      exfalso
      have hv' : (s1.clients.set u s1.chans.length).get? v = some s.chans.length := hv
      by_cases hvu : v = u
      · subst hvu
        rw [GoMap.get?_set_self] at hv'
        exact Nat.ne_of_lt hlt (Option.some.inj hv').symm
      · rw [GoMap.get?_set_ne _ _ hvu] at hv'
        exact hvu (hwf1.chan_injective hv' hget1)
    rw [hout]
    show (((closeOld s1 u ++ [{ buf := [], cap := 10, closed := false }] : Heap)[
      s.chans.length]?).map Chan.closed) = some true
    rw [List.getElem?_append_left (by rw [closeOld_length]; exact hlt),
      closeOld_closed hwf1 hget1, hch]
    rfl
  · obtain ⟨ch2, hch2, hopen2⟩ := hwf2.registered_open hget2
    rw [hch2, Option.map_some', hopen2]
  · intro v hv
    rw [hcl2, GoMap.get?_set_ne _ _ hv, hcl1, GoMap.get?_set_ne _ _ hv]

/-- Instance of `addClient_twice`: `alice` connects twice while `bob` is connected. -/
theorem addClient_twice_witness :
    ∃ ch1 s1 ch2 s2,
      AddClient demoMarshal bobConnected "alice" 1 = some (ch1, s1)
        ∧ AddClient demoMarshal s1 "alice" 2 = some (ch2, s2)
        ∧ s2.clients.get? "alice" = some ch2
        ∧ (GetConnectedUsers s2).count "alice" = 1
        ∧ ch1 ≠ ch2
        ∧ (s2.chans[ch1]?).map Chan.closed = some true
        ∧ (s2.chans[ch2]?).map Chan.closed = some false
        ∧ (∀ v, v ≠ "alice" → s2.clients.get? v = bobConnected.clients.get? v) :=
  addClient_twice demoMarshal bobConnected "alice" 1 2 (by decide)

theorem push_cases {m' : Option Chan} {ch : Chan} {ev : String}
    (h : m' = (some ch).map (fun c => c.push ev)) :
    (ch.buf.length < ch.cap → m' = some { ch with buf := ch.buf ++ [ev] })
      ∧ (ch.cap ≤ ch.buf.length → m' = some ch) := by
  subst h
  exact ⟨fun hroom => by rw [Option.map_some', Chan.push_of_room ch ev hroom],
    fun hfull => by rw [Option.map_some', Chan.push_of_full ch ev hfull]⟩

/-- C5: in a well-formed state, when the notification event serialises to `ev`,
`BroadcastMessage` does not panic and keeps the registry.  A connected user is a
recipient when the target is `all` or is that user.  The mailbox of a recipient
has `ev` appended when it has room and is unchanged when it is full; the mailbox
of every other connected user is unchanged; and when the target is a specific
user who is not connected, the state is unchanged. -/
theorem broadcastMessage_delivery (marshal : Marshal) (s : NotificationService)
    (req : NotifyRequest) (id : String) (now now' : Time) (ev : String) (hwf : WF s)
    (hev : marshal
      { Type' := EventTypeNotification
        Payload := .notification
          { Id := id, From := req.FromUsername, Message := req.Message, Timestamp := now }
        Timestamp := now' } = .ok ev) :
    ∃ s', BroadcastMessage marshal s req id now now' = some s'
      ∧ s'.clients = s.clients
      ∧ (∀ u ch, mailbox s u = some ch →
          ((req.TargetUsername = "all" ∨ u = req.TargetUsername) → ch.buf.length < ch.cap →
            mailbox s' u = some { ch with buf := ch.buf ++ [ev] })
          ∧ ((req.TargetUsername = "all" ∨ u = req.TargetUsername) → ch.cap ≤ ch.buf.length →
            mailbox s' u = some ch)
          ∧ (¬ (req.TargetUsername = "all" ∨ u = req.TargetUsername) →
            mailbox s' u = some ch))
      ∧ (req.TargetUsername ≠ "all" → s.clients.get? req.TargetUsername = none → s' = s) := by
  by_cases hall : req.TargetUsername = "all"
  · obtain ⟨s', hrun, _⟩ := broadcastEventLocked_total marshal hwf EventTypeNotification
      (.notification
        { Id := id, From := req.FromUsername, Message := req.Message, Timestamp := now })
      now' []
    refine ⟨s', by simp [BroadcastMessage, hall, hrun],
      (broadcastEventLocked_frame marshal _ s' _ _ _ _ hwf hrun).1, ?_,
      fun h => absurd hall h⟩
    intro u ch hmb
    obtain ⟨c, hget, _⟩ := mailbox_eq_some hmb
    have hmem : u ∈ recipientsOf s.clients [] := by
      rw [mem_recipientsOf_nil, hget]
      rfl
    have hpush := mailbox_broadcast_of_mem marshal hwf hrun hev u hmem
    rw [hmb] at hpush
    exact ⟨fun _ => (push_cases hpush).1, fun _ => (push_cases hpush).2,
      fun h => absurd (Or.inl hall) h⟩
  · obtain ⟨s', hrun, _⟩ := broadcastEventLocked_total marshal hwf EventTypeNotification
      (.notification
        { Id := id, From := req.FromUsername, Message := req.Message, Timestamp := now })
      now' [req.TargetUsername]
    refine ⟨s', by simp [BroadcastMessage, hall, hrun],
      (broadcastEventLocked_frame marshal _ s' _ _ _ _ hwf hrun).1, ?_, ?_⟩
    · intro u ch hmb
      obtain ⟨c, hget, _⟩ := mailbox_eq_some hmb
      have hiff : u ∈ recipientsOf s.clients [req.TargetUsername] ↔ u = req.TargetUsername := by
        rw [mem_recipientsOf_cons, hget]
        simp
      have hin : (req.TargetUsername = "all" ∨ u = req.TargetUsername) →
          mailbox s' u = (some ch).map (fun c => c.push ev) := by
        intro h
        have hu : u = req.TargetUsername := h.resolve_left hall
        have hpush := mailbox_broadcast_of_mem marshal hwf hrun hev u (hiff.mpr hu)
        rw [hmb] at hpush
        exact hpush
      refine ⟨fun h => (push_cases (hin h)).1, fun h => (push_cases (hin h)).2, fun h => ?_⟩
      rw [mailbox_broadcast_of_not_mem marshal hwf hrun u
        (fun hm => h (Or.inr (hiff.mp hm))), hmb]
    · intro _ hnone
      refine broadcastEventLocked_no_recipient marshal hwf hrun ?_
      intro u hu
      rw [mem_recipientsOf_cons] at hu
      obtain ⟨hu1, hu2⟩ := hu
      rw [List.mem_singleton] at hu1
      rw [hu1, hnone] at hu2
      cases hu2

/-- Instance of `broadcastMessage_delivery`: `alice` notifies `bob`. -/
theorem broadcastMessage_delivery_witness :
    ∃ s', BroadcastMessage demoMarshal bobConnected
        { FromUsername := "alice", Message := "hi", TargetUsername := "bob" } "n1" 3 4 = some s'
      ∧ s'.clients = bobConnected.clients
      ∧ (∀ u ch, mailbox bobConnected u = some ch →
          (("bob" = "all" ∨ u = "bob") → ch.buf.length < ch.cap →
            mailbox s' u = some { ch with buf := ch.buf ++ ["notification:alice>hi"] })
          ∧ (("bob" = "all" ∨ u = "bob") → ch.cap ≤ ch.buf.length → mailbox s' u = some ch)
          ∧ (¬ ("bob" = "all" ∨ u = "bob") → mailbox s' u = some ch))
      ∧ ("bob" ≠ "all" → bobConnected.clients.get? "bob" = none → s' = bobConnected) :=
  broadcastMessage_delivery demoMarshal bobConnected
    { FromUsername := "alice", Message := "hi", TargetUsername := "bob" } "n1" 3 4
    "notification:alice>hi" (by decide) rfl

/-- C6, as stated, fails for the empty list: with `bob` connected and no
username in `toUsernames`, `CreateAcknowledgmentRequest` enqueues the
`acknowledgment_request` event onto the mailbox of `bob`. -/
theorem createAcknowledgmentRequest_empty_list_reaches_all :
    "bob" ∉ ([] : List String)
      ∧ mailbox bobConnected "bob"
        = some { buf := ["user_connected:bob"], cap := 10, closed := false }
      ∧ (CreateAcknowledgmentRequest demoMarshal bobConnected "alice" [] "ping" "r1" 5 5).map
          (fun r => mailbox r.2 "bob")
        = some (some { buf := ["user_connected:bob", "acknowledgment_request:r1"], cap := 10,
                       closed := false }) := by
  decide

/-- C6, amended: in a well-formed state and for a non-empty list `toUsernames`,
`CreateAcknowledgmentRequest` does not panic, returns the generated id, keeps the
registry, and leaves unchanged the mailbox of every user that does not occur in
`toUsernames`; when the event serialises to `ev`, the mailbox of every connected
user in `toUsernames` has `ev` appended if it has room and is unchanged if full. -/
theorem createAcknowledgmentRequest_only_listed (marshal : Marshal) (s : NotificationService)
    (fromUsername : String) (toUsernames : List String) (message : String)
    (requestID : String) (now now' : Time) (hwf : WF s) (hne : toUsernames ≠ []) :
    ∃ s', CreateAcknowledgmentRequest marshal s fromUsername toUsernames message requestID
        now now' = some (requestID, s')
      ∧ s'.clients = s.clients
      ∧ (∀ u, u ∉ toUsernames → mailbox s' u = mailbox s u)
      ∧ (∀ ev, marshal
            { Type' := EventTypeAcknowledgmentRequest
              Payload := .acknowledgmentRequest
                { ID := requestID, FromUsername := fromUsername, ToUsernames := toUsernames,
                  Message := message }
              Timestamp := now' } = .ok ev →
          ∀ u ch, u ∈ toUsernames → mailbox s u = some ch →
            (ch.buf.length < ch.cap → mailbox s' u = some { ch with buf := ch.buf ++ [ev] })
            ∧ (ch.cap ≤ ch.buf.length → mailbox s' u = some ch)) := by
  obtain ⟨t, ts, rfl⟩ := List.exists_cons_of_ne_nil hne
  have hwf1 : WF { s with
      acknowledgmentReqs := s.acknowledgmentReqs.set requestID
        { ID := requestID, FromUsername := fromUsername, ToUsernames := t :: ts,
          Message := message, CreatedAt := now }
      acknowledgmentAckd := s.acknowledgmentAckd.set requestID [] } := hwf.of_eq rfl rfl
  obtain ⟨s', hrun, _⟩ := broadcastEventLocked_total marshal hwf1
    EventTypeAcknowledgmentRequest
    (.acknowledgmentRequest
      { ID := requestID, FromUsername := fromUsername, ToUsernames := t :: ts,
        Message := message })
    now' (t :: ts)
  refine ⟨s', by simp [CreateAcknowledgmentRequest, hrun],
    (broadcastEventLocked_frame marshal _ s' _ _ _ _ hwf1 hrun).1, ?_, ?_⟩
  · intro u hu
    exact mailbox_broadcast_of_not_mem marshal hwf1 hrun u
      (fun hm => hu ((mem_recipientsOf_cons _ _ _ _).mp hm).1)
  · intro ev hev u ch hu hmb
    obtain ⟨c, hget, _⟩ := mailbox_eq_some hmb
    have hmem : u ∈ recipientsOf s.clients (t :: ts) := by
      rw [mem_recipientsOf_cons, hget]
      exact ⟨hu, rfl⟩
    have hpush := mailbox_broadcast_of_mem marshal hwf1 hrun hev u hmem
    have hmb' : mailbox { s with
        acknowledgmentReqs := s.acknowledgmentReqs.set requestID
          { ID := requestID, FromUsername := fromUsername, ToUsernames := t :: ts,
            Message := message, CreatedAt := now }
        acknowledgmentAckd := s.acknowledgmentAckd.set requestID [] } u = some ch := hmb
    rw [hmb'] at hpush
    exact push_cases hpush

/-- Instance of `createAcknowledgmentRequest_only_listed`: a request to `carol` alone
while `bob` is connected. -/
theorem createAcknowledgmentRequest_only_listed_witness :
    ∃ s', CreateAcknowledgmentRequest demoMarshal bobConnected "alice" ["carol"] "ping" "r1"
        5 5 = some ("r1", s')
      ∧ s'.clients = bobConnected.clients
      ∧ (∀ u, u ∉ ["carol"] → mailbox s' u = mailbox bobConnected u)
      ∧ (∀ ev, demoMarshal
            { Type' := EventTypeAcknowledgmentRequest
              Payload := .acknowledgmentRequest
                { ID := "r1", FromUsername := "alice", ToUsernames := ["carol"],
                  Message := "ping" }
              Timestamp := 5 } = .ok ev →
          ∀ u ch, u ∈ ["carol"] → mailbox bobConnected u = some ch →
            (ch.buf.length < ch.cap → mailbox s' u = some { ch with buf := ch.buf ++ [ev] })
            ∧ (ch.cap ≤ ch.buf.length → mailbox s' u = some ch)) :=
  createAcknowledgmentRequest_only_listed demoMarshal bobConnected "alice" ["carol"] "ping"
    "r1" 5 5 (by decide) (by decide)

/-- C7, as stated, fails when the mailbox of the requester is full: in the
reachable state `aliceFull` the request `r1` of `alice` is recorded and her
mailbox holds ten events; `RecordAcknowledgment r1 bob` appends `bob` to the
acknowledged list but enqueues nothing onto the mailbox of `alice`. -/
theorem recordAcknowledgment_drops_on_full_mailbox :
    run demoMarshal NewNotificationService aliceFullOps = some aliceFull
      ∧ (aliceFull.acknowledgmentReqs.get? "r1").map (fun r => r.FromUsername) = some "alice"
      ∧ (mailbox aliceFull "alice").map (fun ch => ch.buf.length) = some 10
      ∧ (RecordAcknowledgment demoMarshal aliceFull "r1" "bob" 7).map
          (fun s' => s'.acknowledgmentAckd.get? "r1") = some (some ["bob"])
      ∧ (RecordAcknowledgment demoMarshal aliceFull "r1" "bob" 7).map
          (fun s' => mailbox s' "alice") = some (mailbox aliceFull "alice") := by
  decide

/-- C7, amended: in a well-formed state where `requestID` is recorded with
requester `req.FromUsername`, `RecordAcknowledgment requestID b` does not panic;
it appends `b` at the end of the acknowledged list of `requestID`, keeps every
other acknowledged list, the request table and the registry, and leaves the
mailbox of every user other than the requester unchanged.  When the
`acknowledgment_response` event with payload `requestID`, `b` serialises to `ev`,
the mailbox of the requester has `ev` appended if it has room and is unchanged if
it is full.  When the requester is not connected no channel changes. -/
theorem recordAcknowledgment_recorded (marshal : Marshal) (s : NotificationService)
    (requestID b : String) (now : Time) (req : AcknowledgmentRequest) (hwf : WF s)
    (hreq : s.acknowledgmentReqs.get? requestID = some req) :
    ∃ s', RecordAcknowledgment marshal s requestID b now = some s'
      ∧ s'.acknowledgmentAckd.get? requestID
        = some ((s.acknowledgmentAckd.get? requestID).getD [] ++ [b])
      ∧ (∀ id, id ≠ requestID →
          s'.acknowledgmentAckd.get? id = s.acknowledgmentAckd.get? id)
      ∧ s'.acknowledgmentReqs = s.acknowledgmentReqs
      ∧ s'.clients = s.clients
      ∧ (∀ u, u ≠ req.FromUsername → mailbox s' u = mailbox s u)
      ∧ (∀ ev ch, marshal
            { Type' := EventTypeAcknowledgmentResponse
              Payload := .acknowledgmentResponse { RequestID := requestID, FromUsername := b }
              Timestamp := now } = .ok ev →
          mailbox s req.FromUsername = some ch →
            (ch.buf.length < ch.cap →
              mailbox s' req.FromUsername = some { ch with buf := ch.buf ++ [ev] })
            ∧ (ch.cap ≤ ch.buf.length → mailbox s' req.FromUsername = some ch))
      ∧ (s.clients.get? req.FromUsername = none → s'.chans = s.chans) := by
  have hwf1 : WF { s with
      acknowledgmentAckd := s.acknowledgmentAckd.set requestID
        ((s.acknowledgmentAckd.get? requestID).getD [] ++ [b]) } := hwf.of_eq rfl rfl
  obtain ⟨s', hrun, _⟩ := broadcastEventLocked_total marshal hwf1
    EventTypeAcknowledgmentResponse
    (.acknowledgmentResponse { RequestID := requestID, FromUsername := b })
    now [req.FromUsername]
  obtain ⟨hcl, hreqs, hackd, _⟩ := broadcastEventLocked_frame marshal _ s' _ _ _ _ hwf1 hrun
  have hiff : ∀ u, u ∈ recipientsOf s.clients [req.FromUsername]
      ↔ u = req.FromUsername ∧ (s.clients.get? u).isSome = true := by
    intro u
    rw [mem_recipientsOf_cons, List.mem_singleton]
  refine ⟨s', by simp [RecordAcknowledgment, hreq, hrun], ?_, ?_, hreqs, hcl, ?_, ?_, ?_⟩
  · rw [hackd]
    exact GoMap.get?_set_self _ _ _
  · intro id hid
    rw [hackd]
    exact GoMap.get?_set_ne _ _ hid
  · intro u hu
    exact mailbox_broadcast_of_not_mem marshal hwf1 hrun u (fun hm => hu ((hiff u).mp hm).1)
  · intro ev ch hev hmb
    obtain ⟨c, hget, _⟩ := mailbox_eq_some hmb
    have hmem : req.FromUsername ∈ recipientsOf s.clients [req.FromUsername] := by
      rw [hiff, hget]
      exact ⟨rfl, rfl⟩
    have hpush := mailbox_broadcast_of_mem marshal hwf1 hrun hev req.FromUsername hmem
    have hmb' : mailbox { s with
        acknowledgmentAckd := s.acknowledgmentAckd.set requestID
          ((s.acknowledgmentAckd.get? requestID).getD [] ++ [b]) } req.FromUsername
        = some ch := hmb
    rw [hmb'] at hpush
    exact push_cases hpush
  · intro hnone
    have hs' := broadcastEventLocked_no_recipient marshal hwf1 hrun (fun u hu => by
      obtain ⟨hu1, hu2⟩ := (hiff u).mp hu
      rw [hu1, hnone] at hu2
      cases hu2)
    rw [hs']

/-- Instance of `recordAcknowledgment_recorded` on the state `aliceFull`. -/
theorem recordAcknowledgment_recorded_witness :
    ∃ s', RecordAcknowledgment demoMarshal aliceFull "r1" "bob" 7 = some s'
      ∧ s'.acknowledgmentAckd.get? "r1"
        = some ((aliceFull.acknowledgmentAckd.get? "r1").getD [] ++ ["bob"])
      ∧ (∀ id, id ≠ "r1" →
          s'.acknowledgmentAckd.get? id = aliceFull.acknowledgmentAckd.get? id)
      ∧ s'.acknowledgmentReqs = aliceFull.acknowledgmentReqs
      ∧ s'.clients = aliceFull.clients
      ∧ (∀ u, u ≠ "alice" → mailbox s' u = mailbox aliceFull u)
      ∧ (∀ ev ch, demoMarshal
            { Type' := EventTypeAcknowledgmentResponse
              Payload := .acknowledgmentResponse { RequestID := "r1", FromUsername := "bob" }
              Timestamp := 7 } = .ok ev →
          mailbox aliceFull "alice" = some ch →
            (ch.buf.length < ch.cap →
              mailbox s' "alice" = some { ch with buf := ch.buf ++ [ev] })
            ∧ (ch.cap ≤ ch.buf.length → mailbox s' "alice" = some ch))
      ∧ (aliceFull.clients.get? "alice" = none → s'.chans = aliceFull.chans) :=
  recordAcknowledgment_recorded demoMarshal aliceFull "r1" "bob" 7
    { ID := "r1", FromUsername := "alice", ToUsernames := ["bob"], Message := "ping",
      CreatedAt := 1 }
    (by decide) (by decide)

/-- C8: when `requestID` is not a recorded acknowledgment request,
`RecordAcknowledgment requestID b` returns the state it was given: registry,
channels, request table and acknowledged lists are all unchanged. -/
theorem recordAcknowledgment_unknown (marshal : Marshal) (s : NotificationService)
    (requestID b : String) (now : Time)
    (hunknown : s.acknowledgmentReqs.get? requestID = none) :
    RecordAcknowledgment marshal s requestID b now = some s := by
  simp [RecordAcknowledgment, hunknown]

/-- Instance of `recordAcknowledgment_unknown`: the id `r2` is not recorded in `aliceFull`. -/
theorem recordAcknowledgment_unknown_witness :
    RecordAcknowledgment demoMarshal aliceFull "r2" "bob" 7 = some aliceFull :=
  recordAcknowledgment_unknown demoMarshal aliceFull "r2" "bob" 7 (by decide)

/-- C9: in every state reachable from `NewNotificationService` by calls of the
public operations, every registered mailbox has capacity 10 and holds at most
10 events.  A broadcast from such a state does not panic; it leaves every
mailbox that holds 10 events unchanged, and, when the event serialises to `ev`,
appends `ev` to the mailbox of every recipient that holds fewer than 10. -/
theorem mailbox_never_exceeds_capacity (marshal : Marshal) (s : NotificationService)
    (hreach : Reachable marshal s) :
    (∀ u ch, mailbox s u = some ch → ch.cap = 10 ∧ ch.buf.length ≤ 10)
      ∧ (∀ eventType payload now targetUsers,
          ∃ s', broadcastEventLocked marshal s eventType payload now targetUsers = some s'
            ∧ (∀ u ch, mailbox s u = some ch → ch.buf.length = 10 → mailbox s' u = some ch)
            ∧ (∀ ev, marshal { Type' := eventType, Payload := payload, Timestamp := now }
                  = .ok ev →
                ∀ u ch, u ∈ recipientsOf s.clients targetUsers → mailbox s u = some ch →
                  ch.buf.length < 10 →
                  mailbox s' u = some { ch with buf := ch.buf ++ [ev] })) := by
  have hwf := hreach.wellFormed
  have hbound : ∀ u ch, mailbox s u = some ch → ch.cap = 10 ∧ ch.buf.length ≤ 10 := by
    intro u ch hmb
    obtain ⟨c, _, hch⟩ := mailbox_eq_some hmb
    have h := hwf.2.2.2 ch (List.mem_iff_getElem?.mpr ⟨c, hch⟩)
    exact ⟨h.1, h.1 ▸ h.2⟩
  refine ⟨hbound, ?_⟩
  intro eventType payload now targetUsers
  obtain ⟨s', hrun, _⟩ :=
    broadcastEventLocked_total marshal hwf eventType payload now targetUsers
  refine ⟨s', hrun, ?_, ?_⟩
  · intro u ch hmb hfull
    have hcap := (hbound u ch hmb).1
    by_cases hmem : u ∈ recipientsOf s.clients targetUsers
    · cases hm : marshal { Type' := eventType, Payload := payload, Timestamp := now } with
      | error err =>
        obtain ⟨s'', hrun', _, herr⟩ :=
          broadcastEventLocked_spec marshal s eventType payload now targetUsers hwf
        rw [hrun] at hrun'
        cases hrun'
        rw [herr err hm, hmb]
      | ok ev =>
        have hpush := mailbox_broadcast_of_mem marshal hwf hrun hm u hmem
        rw [hmb] at hpush
        exact (push_cases hpush).2 (by rw [hcap, hfull])
    · rw [mailbox_broadcast_of_not_mem marshal hwf hrun u hmem, hmb]
  · intro ev hev u ch hmem hmb hroom
    have hcap := (hbound u ch hmb).1
    have hpush := mailbox_broadcast_of_mem marshal hwf hrun hev u hmem
    rw [hmb] at hpush
    exact (push_cases hpush).1 (by rw [hcap]; exact hroom)

/-- Instance of `mailbox_never_exceeds_capacity` on the state `aliceFull`, reached by
the calls `aliceFullOps`. -/
theorem mailbox_never_exceeds_capacity_witness :
    (∀ u ch, mailbox aliceFull u = some ch → ch.cap = 10 ∧ ch.buf.length ≤ 10)
      ∧ (∀ eventType payload now targetUsers,
          ∃ s', broadcastEventLocked demoMarshal aliceFull eventType payload now targetUsers
              = some s'
            ∧ (∀ u ch, mailbox aliceFull u = some ch → ch.buf.length = 10 →
                mailbox s' u = some ch)
            ∧ (∀ ev, demoMarshal { Type' := eventType, Payload := payload, Timestamp := now }
                  = .ok ev →
                ∀ u ch, u ∈ recipientsOf aliceFull.clients targetUsers →
                  mailbox aliceFull u = some ch → ch.buf.length < 10 →
                  mailbox s' u = some { ch with buf := ch.buf ++ [ev] })) :=
  mailbox_never_exceeds_capacity demoMarshal aliceFull ⟨aliceFullOps, by decide⟩

/-- C10, at the failing input: `bob` is connected and `alice` connected twice, so
channel `1`, her first mailbox, is closed and channel `2` is registered for her.
The `RemoveClient alice` of the reader of the first mailbox is not a no-op: it
unregisters `alice`, closes channel `2`, and enqueues `user_disconnected` for
`alice` onto the mailbox of `bob`; the `RemoveClient alice` issued when the
second connection ends then changes nothing. -/
theorem removeClient_after_supersede_removes_new_mailbox :
    run demoMarshal NewNotificationService
        [.addClient "bob" 0, .addClient "alice" 1, .addClient "alice" 2] = some aliceSuperseded
      ∧ aliceSuperseded.clients.get? "alice" = some 2
      ∧ (RemoveClient demoMarshal aliceSuperseded "alice" 3).map
          (fun s' => s'.clients.get? "alice") = some none
      ∧ (RemoveClient demoMarshal aliceSuperseded "alice" 3).map
          (fun s' => (s'.chans[2]?).map Chan.closed) = some (some true)
      ∧ (RemoveClient demoMarshal aliceSuperseded "alice" 3).map
          (fun s' => (mailbox s' "bob").map Chan.buf)
        = some (some ["user_connected:bob", "user_connected:alice", "user_connected:alice",
                      "user_disconnected:alice"])
      ∧ (RemoveClient demoMarshal aliceSuperseded "alice" 3).bind
          (fun s' => RemoveClient demoMarshal s' "alice" 4)
        = RemoveClient demoMarshal aliceSuperseded "alice" 3 := by
  decide

/-! ## Connect and disconnect broadcasts -/

/-- Registering `u` leaves the mailbox of every other user as it is. -/
theorem mailbox_registered_of_ne {s : NotificationService} (hwf : WF s) {u v : String}
    (hv : v ≠ u) : mailbox (registered s u) v = mailbox s v := by
  unfold mailbox
  show (match (s.clients.set u s.chans.length).get? v with
    | none => none
    | some c => (closeOld s u ++ [({ buf := [], cap := 10, closed := false } : Chan)])[c]?) = _
  rw [GoMap.get?_set_ne _ _ hv]
  cases hget : s.clients.get? v with
  | none => rfl
  | some c =>
    obtain ⟨ch, hch, _⟩ := hwf.registered_open hget
    have hlt : c < (closeOld s u).length := by
      rw [closeOld_length]
      exact (List.getElem?_eq_some_iff.mp hch).1
    show (closeOld s u ++ [({ buf := [], cap := 10, closed := false } : Chan)])[c]? = s.chans[c]?
    rw [List.getElem?_append_left hlt]
    exact closeOld_same hwf u c (fun hu => hv (hwf.chan_injective hget hu))

/-- Removing `u` leaves the mailbox of every other user as it is. -/
theorem mailbox_unregistered_of_ne {s : NotificationService} (hwf : WF s) {u v : String}
    (hv : v ≠ u) : mailbox (unregistered s u) v = mailbox s v := by
  unfold mailbox
  show (match (s.clients.delete u).get? v with
    | none => none
    | some c => (closeOld s u)[c]?) = _
  rw [GoMap.get?_delete_ne _ hv]
  cases hget : s.clients.get? v with
  | none => rfl
  | some c => exact closeOld_same hwf u c (fun hu => hv (hwf.chan_injective hget hu))

/-- C11: when `u` is not registered, `RemoveClient u` returns the state it was
given: the registry, every channel (contents and closed flag) and both
acknowledgment tables are unchanged, so no mailbox is closed and no
`user_disconnected` event is enqueued. -/
theorem removeClient_not_registered (marshal : Marshal) (s : NotificationService)
    (u : String) (now : Time) (hnot : s.clients.get? u = none) :
    RemoveClient marshal s u now = some s := by
  unfold RemoveClient
  rw [hnot]

/-- Instance of `removeClient_not_registered`: `carol` is not registered in `bobConnected`. -/
theorem removeClient_not_registered_witness :
    RemoveClient demoMarshal bobConnected "carol" 3 = some bobConnected :=
  removeClient_not_registered demoMarshal bobConnected "carol" 3 (by decide)

/-- C12: in a well-formed state, when the `user_connected` event with payload
`u` serialises to `ev`, `AddClient u` does not panic and returns the channel
registered for `u`, which holds exactly the one event `ev`; every other user keeps
their registration, and the mailbox of every other connected user has `ev`
appended when it has room and is unchanged when it is full. -/
theorem addClient_broadcasts_user_connected (marshal : Marshal) (s : NotificationService)
    (u : String) (now : Time) (ev : String) (hwf : WF s)
    (hev : marshal
      { Type' := EventTypeUserConnected
        Payload := .userConnected { Username := u }
        Timestamp := now } = .ok ev) :
    ∃ ch s', AddClient marshal s u now = some (ch, s')
      ∧ s'.clients.get? u = some ch
      ∧ s'.chans[ch]? = some { buf := [ev], cap := 10, closed := false }
      ∧ (∀ v, v ≠ u → s'.clients.get? v = s.clients.get? v)
      ∧ (∀ v chv, v ≠ u → mailbox s v = some chv →
          (chv.buf.length < chv.cap →
            mailbox s' v = some { chv with buf := chv.buf ++ [ev] })
          ∧ (chv.cap ≤ chv.buf.length → mailbox s' v = some chv)) := by
  have hwf1 := wf_registered hwf u
  obtain ⟨s', hrun, _⟩ := broadcastEventLocked_total marshal hwf1
    EventTypeUserConnected (.userConnected { Username := u }) now []
  have hcl : s'.clients = s.clients.set u s.chans.length :=
    (broadcastEventLocked_frame marshal _ s' _ _ _ _ hwf1 hrun).1
  have hgetu : (registered s u).clients.get? u = some s.chans.length :=
    GoMap.get?_set_self _ _ _
  have hall : ∀ v c, (registered s u).clients.get? v = some c →
      v ∈ recipientsOf (registered s u).clients [] := by
    intro v c hc
    rw [mem_recipientsOf_nil, hc]
    rfl
  refine ⟨s.chans.length, s', ?_, ?_, ?_, ?_, ?_⟩
  · rw [AddClient_eq marshal hwf, hrun]
    rfl
  · rw [hcl]
    exact GoMap.get?_set_self _ _ _
  · have hpush := mailbox_broadcast_of_mem marshal hwf1 hrun hev u (hall u _ hgetu)
    have hnew : mailbox (registered s u) u
        = some { buf := [], cap := 10, closed := false } := by
      unfold mailbox
      rw [hgetu]
      show (closeOld s u ++ [({ buf := [], cap := 10, closed := false } : Chan)])[
        s.chans.length]? = _
      rw [← closeOld_length s u]
      exact List.getElem?_concat_length _ _
    rw [hnew] at hpush
    have hmb : mailbox s' u = some { buf := [ev], cap := 10, closed := false } := by
      rw [(push_cases hpush).1 (by decide)]
      rfl
    unfold mailbox at hmb
    rw [hcl, GoMap.get?_set_self] at hmb
    exact hmb
  · intro v hv
    rw [hcl]
    exact GoMap.get?_set_ne _ _ hv
  · intro v chv hv hmb
    have hmb1 : mailbox (registered s u) v = some chv := by
      rw [mailbox_registered_of_ne hwf hv]
      exact hmb
    obtain ⟨c, hc, _⟩ := mailbox_eq_some hmb1
    have hpush := mailbox_broadcast_of_mem marshal hwf1 hrun hev v (hall v c hc)
    rw [hmb1] at hpush
    exact push_cases hpush

/-- Instance of `addClient_broadcasts_user_connected`: `alice` connects while `bob` is
connected. -/
theorem addClient_broadcasts_user_connected_witness :
    ∃ ch s', AddClient demoMarshal bobConnected "alice" 1 = some (ch, s')
      ∧ s'.clients.get? "alice" = some ch
      ∧ s'.chans[ch]? = some { buf := ["user_connected:alice"], cap := 10, closed := false }
      ∧ (∀ v, v ≠ "alice" → s'.clients.get? v = bobConnected.clients.get? v)
      ∧ (∀ v chv, v ≠ "alice" → mailbox bobConnected v = some chv →
          (chv.buf.length < chv.cap →
            mailbox s' v = some { chv with buf := chv.buf ++ ["user_connected:alice"] })
          ∧ (chv.cap ≤ chv.buf.length → mailbox s' v = some chv)) :=
  addClient_broadcasts_user_connected demoMarshal bobConnected "alice" 1
    "user_connected:alice" (by decide) rfl

/-- C13: in a well-formed state where `u` is registered with channel `c`,
`RemoveClient u` does not panic; channel `c` is closed with its contents
untouched; the registry has no entry for `u` any more, and `GetConnectedUsers`
returns exactly the users other than `u` that were registered before, each with
the same registration; and when the
`user_disconnected` event with payload `u` serialises to `ev`, the mailbox of
every remaining user has `ev` appended when it has room and is unchanged when full. -/
theorem removeClient_registered (marshal : Marshal) (s : NotificationService) (u : String)
    (now : Time) (c : ChanId) (hwf : WF s) (hreg : s.clients.get? u = some c) :
    ∃ s', RemoveClient marshal s u now = some s'
      ∧ (∃ ch, s.chans[c]? = some ch ∧ s'.chans[c]? = some { ch with closed := true })
      ∧ s'.clients.get? u = none
      ∧ (∀ v, v ∈ GetConnectedUsers s' ↔ v ≠ u ∧ (s.clients.get? v).isSome = true)
      ∧ u ∉ GetConnectedUsers s'
      ∧ (∀ v, v ≠ u → (v ∈ GetConnectedUsers s' ↔ v ∈ GetConnectedUsers s))
      ∧ (∀ v, v ≠ u → s'.clients.get? v = s.clients.get? v)
      ∧ (∀ ev, marshal
            { Type' := EventTypeUserDisconnected
              Payload := .userDisconnected { Username := u }
              Timestamp := now } = .ok ev →
          ∀ v chv, v ≠ u → mailbox s v = some chv →
            (chv.buf.length < chv.cap →
              mailbox s' v = some { chv with buf := chv.buf ++ [ev] })
            ∧ (chv.cap ≤ chv.buf.length → mailbox s' v = some chv)) := by
  have hwf1 := wf_unregistered hwf u
  obtain ⟨s', hrun, _⟩ := broadcastEventLocked_total marshal hwf1
    EventTypeUserDisconnected (.userDisconnected { Username := u }) now []
  have hcl : s'.clients = s.clients.delete u :=
    (broadcastEventLocked_frame marshal _ s' _ _ _ _ hwf1 hrun).1
  refine ⟨s', ?_, ?_, ?_, ?_, ?_, ?_, ?_, ?_⟩
  · rw [RemoveClient_eq marshal hwf hreg, hrun]
  · obtain ⟨ch, hch, _⟩ := hwf.registered_open hreg
    refine ⟨ch, hch, ?_⟩
    have hout : s'.chans[c]? = (unregistered s u).chans[c]? := by
      refine broadcastEventLocked_outside marshal hwf1 hrun c ?_
      intro v hv
      exfalso
      have hv' : (s.clients.delete u).get? v = some c := hv
      by_cases hvu : v = u
      · subst hvu
        rw [GoMap.get?_delete_self] at hv'
        cases hv'
      · rw [GoMap.get?_delete_ne _ hvu] at hv'
        exact hvu (hwf.chan_injective hv' hreg)
    rw [hout]
    show (closeOld s u)[c]? = _
    rw [closeOld_closed hwf hreg, hch]
    rfl
  · rw [hcl]
    exact GoMap.get?_delete_self _ _
  · intro v
    show v ∈ s'.clients.keys ↔ _
    rw [GoMap.mem_keys_iff, hcl]
    by_cases hv : v = u
    · subst hv
      rw [GoMap.get?_delete_self]
      exact ⟨fun h => (by cases h), fun h => absurd rfl h.1⟩
    · rw [GoMap.get?_delete_ne _ hv]
      exact ⟨fun h => ⟨hv, h⟩, fun h => h.2⟩
  · show u ∉ s'.clients.keys
    rw [hcl]
    exact GoMap.not_mem_keys_delete _ _
  · intro v hv
    show v ∈ s'.clients.keys ↔ v ∈ s.clients.keys
    rw [GoMap.mem_keys_iff, GoMap.mem_keys_iff, hcl, GoMap.get?_delete_ne _ hv]
  · intro v hv
    rw [hcl]
    exact GoMap.get?_delete_ne _ hv
  · intro ev hev v chv hv hmb
    have hmb1 : mailbox (unregistered s u) v = some chv := by
      rw [mailbox_unregistered_of_ne hwf hv]
      exact hmb
    obtain ⟨c', hc', _⟩ := mailbox_eq_some hmb1
    have hmem : v ∈ recipientsOf (unregistered s u).clients [] := by
      rw [mem_recipientsOf_nil, hc']
      rfl
    have hpush := mailbox_broadcast_of_mem marshal hwf1 hrun hev v hmem
    rw [hmb1] at hpush
    exact push_cases hpush

/-- Instance of `removeClient_registered`: `alice` disconnects from `aliceSuperseded`. -/
theorem removeClient_registered_witness :
    ∃ s', RemoveClient demoMarshal aliceSuperseded "alice" 3 = some s'
      ∧ (∃ ch, aliceSuperseded.chans[2]? = some ch
          ∧ s'.chans[2]? = some { ch with closed := true })
      ∧ s'.clients.get? "alice" = none
      ∧ (∀ v, v ∈ GetConnectedUsers s'
          ↔ v ≠ "alice" ∧ (aliceSuperseded.clients.get? v).isSome = true)
      ∧ "alice" ∉ GetConnectedUsers s'
      ∧ (∀ v, v ≠ "alice" →
          (v ∈ GetConnectedUsers s' ↔ v ∈ GetConnectedUsers aliceSuperseded))
      ∧ (∀ v, v ≠ "alice" → s'.clients.get? v = aliceSuperseded.clients.get? v)
      ∧ (∀ ev, demoMarshal
            { Type' := EventTypeUserDisconnected
              Payload := .userDisconnected { Username := "alice" }
              Timestamp := 3 } = .ok ev →
          ∀ v chv, v ≠ "alice" → mailbox aliceSuperseded v = some chv →
            (chv.buf.length < chv.cap →
              mailbox s' v = some { chv with buf := chv.buf ++ [ev] })
            ∧ (chv.cap ≤ chv.buf.length → mailbox s' v = some chv)) :=
  removeClient_registered demoMarshal aliceSuperseded "alice" 3 2 (by decide) (by decide)

/-- C14: in a well-formed state `CreateAcknowledgmentRequest` does not panic and
returns the generated id, whoever is connected; afterwards the request table maps
the id to the request with the given sender, recipients (in order), message and
creation time, the acknowledged list of the id is empty, and the entries of both
tables for every other id are unchanged. -/
theorem createAcknowledgmentRequest_records (marshal : Marshal) (s : NotificationService)
    (fromUsername : String) (toUsernames : List String) (message : String)
    (requestID : String) (now now' : Time) (hwf : WF s) :
    ∃ s', CreateAcknowledgmentRequest marshal s fromUsername toUsernames message requestID
        now now' = some (requestID, s')
      ∧ s'.acknowledgmentReqs.get? requestID
        = some { ID := requestID, FromUsername := fromUsername, ToUsernames := toUsernames,
                 Message := message, CreatedAt := now }
      ∧ s'.acknowledgmentAckd.get? requestID = some []
      ∧ (∀ id, id ≠ requestID →
          s'.acknowledgmentReqs.get? id = s.acknowledgmentReqs.get? id
          ∧ s'.acknowledgmentAckd.get? id = s.acknowledgmentAckd.get? id) := by
  have hwf1 : WF { s with
      acknowledgmentReqs := s.acknowledgmentReqs.set requestID
        { ID := requestID, FromUsername := fromUsername, ToUsernames := toUsernames,
          Message := message, CreatedAt := now }
      acknowledgmentAckd := s.acknowledgmentAckd.set requestID [] } := hwf.of_eq rfl rfl
  obtain ⟨s', hrun, _⟩ := broadcastEventLocked_total marshal hwf1
    EventTypeAcknowledgmentRequest
    (.acknowledgmentRequest
      { ID := requestID, FromUsername := fromUsername, ToUsernames := toUsernames,
        Message := message })
    now' toUsernames
  obtain ⟨_, hreqs, hackd, _⟩ := broadcastEventLocked_frame marshal _ s' _ _ _ _ hwf1 hrun
  refine ⟨s', by simp [CreateAcknowledgmentRequest, hrun], ?_, ?_, ?_⟩
  · rw [hreqs]
    exact GoMap.get?_set_self _ _ _
  · rw [hackd]
    exact GoMap.get?_set_self _ _ _
  · intro id hid
    rw [hreqs, hackd]
    exact ⟨GoMap.get?_set_ne _ _ hid, GoMap.get?_set_ne _ _ hid⟩

/-- Instance of `createAcknowledgmentRequest_records`: a request to `carol`, who is
not connected. -/
theorem createAcknowledgmentRequest_records_witness :
    ∃ s', CreateAcknowledgmentRequest demoMarshal bobConnected "alice" ["carol"] "ping" "r1"
        5 6 = some ("r1", s')
      ∧ s'.acknowledgmentReqs.get? "r1"
        = some { ID := "r1", FromUsername := "alice", ToUsernames := ["carol"],
                 Message := "ping", CreatedAt := 5 }
      ∧ s'.acknowledgmentAckd.get? "r1" = some []
      ∧ (∀ id, id ≠ "r1" →
          s'.acknowledgmentReqs.get? id = bobConnected.acknowledgmentReqs.get? id
          ∧ s'.acknowledgmentAckd.get? id = bobConnected.acknowledgmentAckd.get? id) :=
  createAcknowledgmentRequest_records demoMarshal bobConnected "alice" ["carol"] "ping" "r1"
    5 6 (by decide)

/-! ## Validation in the handlers -/

/-- The handler `PostLogin` rejects an empty username and leaves both components as they were. -/
theorem postLogin_rejects_empty_username (h : StrictApiHandler) (now : Time)
    (rnd : RandRead) :
    PostLogin h (some { Username := "" }) now rnd
      = some (.error "username is required", h) := by
  simp [PostLogin]

/-- The handler `PostAcknowledgeRequest` rejects an empty recipient list or an empty
message after a successful session lookup, and leaves the notification service
as it was. -/
theorem postAcknowledgeRequest_rejects_missing_field (marshal : Marshal)
    (h : StrictApiHandler) (ginCtx : Option (Option String)) (b : AcknowledgeRequestBody)
    (tGet : Time) (requestID : String) (now now' : Time)
    (hmissing : b.ToUsernames = [] ∨ b.Message = "") :
    ∃ err store, PostAcknowledgeRequest marshal h ginCtx (some b) tGet requestID now now'
      = some (.error err, { h with SessionStore := store }) := by
  rcases ginCtx with _ | _ | sessionID
  · exact ⟨"context is not a gin.Context", h.SessionStore, rfl⟩
  · exact ⟨"session not found", h.SessionStore, rfl⟩
  · cases hget : GetSession h.SessionStore sessionID tGet with
    | mk found store =>
      cases found with
      | none =>
        exact ⟨"invalid or expired session", store, by simp [PostAcknowledgeRequest, hget]⟩
      | some session =>
        by_cases hto : b.ToUsernames.length = 0
        · exact ⟨"to_usernames is required and must not be empty", store,
            by simp [PostAcknowledgeRequest, hget, hto]⟩
        · have hmsg : b.Message = "" := by
            rcases hmissing with h1 | h2
            · exact absurd (by rw [h1]; rfl) hto
            · exact h2
          exact ⟨"message is required", store,
            by simp [PostAcknowledgeRequest, hget, hto, hmsg]⟩

/-- C15, at the failing input: with `bob` connected, `PostNotify` answers success
to a request whose message is empty and target is `all`, and the notification
with the empty message is enqueued onto the mailbox of `bob`; a request whose
target is empty is answered with success as well. -/
theorem postNotify_accepts_empty_message :
    (PostNotify demoMarshal { Service := bobConnected, SessionStore := NewSessionStore }
        (some { FromUsername := "alice", Message := "", TargetUsername := "all" })
        "n1" 3 4).map (fun r => (r.1.toBool, (mailbox r.2.Service "bob").map Chan.buf))
      = some (true, some ["user_connected:bob", "notification:alice>"])
    ∧ (PostNotify demoMarshal { Service := bobConnected, SessionStore := NewSessionStore }
        (some { FromUsername := "alice", Message := "hi", TargetUsername := "" })
        "n1" 3 4).map (fun r => r.1.toBool)
      = some true := by
  decide

/-! ## Session identifiers and deletion -/

theorem hexDigit_injective : ∀ a b : Fin 16, hexDigit a.val = hexDigit b.val → a = b := by
  decide

theorem hexDigit_mem : ∀ a : Fin 16, hexDigit a.val ∈ "0123456789abcdef".toList := by
  decide

/-- The two digits of a byte determine the byte. -/
theorem hexPair_injective (x y : Fin 256) (hhi : hexDigit (x.val / 16) = hexDigit (y.val / 16))
    (hlo : hexDigit (x.val % 16) = hexDigit (y.val % 16)) : x = y := by
  have hx := x.isLt
  have hy := y.isLt
  have h1 := hexDigit_injective ⟨x.val / 16, by omega⟩ ⟨y.val / 16, by omega⟩ hhi
  have h2 := hexDigit_injective ⟨x.val % 16, by omega⟩ ⟨y.val % 16, by omega⟩ hlo
  have h1' : x.val / 16 = y.val / 16 := congrArg Fin.val h1
  have h2' : x.val % 16 = y.val % 16 := congrArg Fin.val h2
  apply Fin.ext
  omega

theorem hexChars_injective :
    ∀ b b' : List (Fin 256),
      b.flatMap (fun x => [hexDigit (x.val / 16), hexDigit (x.val % 16)])
        = b'.flatMap (fun x => [hexDigit (x.val / 16), hexDigit (x.val % 16)]) →
      b = b' := by
  intro b
  induction b with
  | nil =>
    intro b' h
    cases b' with
    | nil => rfl
    | cons y ys => simp [List.flatMap_cons] at h
  | cons x xs ih =>
    intro b' h
    cases b' with
    | nil => simp [List.flatMap_cons] at h
    | cons y ys =>
      simp only [List.flatMap_cons, List.cons_append, List.nil_append, List.cons.injEq] at h
      obtain ⟨hhi, hlo, hrest⟩ := h
      rw [hexPair_injective x y hhi hlo, ih ys hrest]

theorem hexEncodeToString_injective (b b' : List (Fin 256))
    (h : hexEncodeToString b = hexEncodeToString b') : b = b' :=
  hexChars_injective b b' (congrArg String.data h)

theorem hexEncodeToString_length (b : List (Fin 256)) :
    (hexEncodeToString b).length = 2 * b.length := by
  show (b.flatMap (fun x => [hexDigit (x.val / 16), hexDigit (x.val % 16)])).length = _
  induction b with
  | nil => rfl
  | cons x xs ih =>
    simp only [List.flatMap_cons, List.length_append, List.length_cons, List.length_nil, ih]
    omega

theorem hexEncodeToString_chars (b : List (Fin 256)) :
    ∀ c ∈ (hexEncodeToString b).toList, c ∈ "0123456789abcdef".toList := by
  intro c hc
  have hc' : c ∈ b.flatMap (fun x => [hexDigit (x.val / 16), hexDigit (x.val % 16)]) := hc
  obtain ⟨x, _, hx⟩ := List.mem_flatMap.mp hc'
  have hlt := x.isLt
  simp only [List.mem_cons, List.mem_singleton, List.not_mem_nil, or_false] at hx
  rcases hx with h | h
  · rw [h]
    exact hexDigit_mem ⟨x.val / 16, by omega⟩
  · rw [h]
    exact hexDigit_mem ⟨x.val % 16, by omega⟩

/-- C16, as stated, fails when the randomness source fails by aborting the process,
as `rand.Read` does since Go 1.24: `CreateSession` then returns nothing, so it
returns no error although the source failed. -/
theorem createSession_no_error_when_source_aborts :
    randRead .aborted (List.replicate 32 0) = none
      ∧ CreateSession NewSessionStore "alice" 86400000000000 100 .aborted = none
      ∧ ¬ ∃ err st', CreateSession NewSessionStore "alice" 86400000000000 100 .aborted
          = some (.error err, st') := by
  refine ⟨rfl, rfl, ?_⟩
  rintro ⟨err, st', h⟩
  have hnone : CreateSession NewSessionStore "alice" 86400000000000 100 .aborted = none := rfl
  rw [hnone] at h
  cases h

/-- C16, amended: `CreateSession` returns an error exactly when `rand.Read` returns
one, with that error and the store unchanged; it returns nothing exactly when
`rand.Read` aborts the process.  When `rand.Read` fills the 32-byte buffer the
call succeeds with the session whose id is the hexadecimal encoding of the
buffer: 64 characters, all among `0123456789abcdef`; the session is stored under
that id and every other entry of the store is unchanged.  Buffers that differ in
one of the 32 bytes give different ids, the encoding being injective. -/
theorem createSession_error_iff (st : SessionStore) (username : String) (d : Duration)
    (now : Time) (rnd : RandRead) :
    (∀ err st', CreateSession st username d now rnd = some (.error err, st')
        ↔ rnd = .failed err ∧ st' = st)
      ∧ (CreateSession st username d now rnd = none ↔ rnd = .aborted)
      ∧ (∀ src, rnd = .filled src →
          ∃ sess st', CreateSession st username d now rnd = some (.ok sess, st')
            ∧ sess.ID = hexEncodeToString ((List.range 32).map src)
            ∧ sess.ID.length = 64
            ∧ (∀ c ∈ sess.ID.toList, c ∈ "0123456789abcdef".toList)
            ∧ st'.sessions.get? sess.ID = some sess
            ∧ (∀ id, id ≠ sess.ID → st'.sessions.get? id = st.sessions.get? id))
      ∧ (∀ src src', generateSessionID (.filled src) = generateSessionID (.filled src') →
          ∀ i, i < 32 → src i = src' i)
      ∧ (∀ b b' : List (Fin 256), hexEncodeToString b = hexEncodeToString b' → b = b') := by
  have hgen : ∀ src, generateSessionID (.filled src)
      = some (.ok (hexEncodeToString ((List.range 32).map src))) := by
    intro src
    simp [generateSessionID, randRead]
  refine ⟨?_, ?_, ?_, ?_, hexEncodeToString_injective⟩
  · intro err st'
    cases rnd with
    | filled src => simp [CreateSession, hgen]
    | failed e =>
      simp only [CreateSession, generateSessionID, randRead, Option.some.injEq, Prod.mk.injEq,
        Except.error.injEq, RandRead.failed.injEq]
      exact ⟨fun h => ⟨h.1, h.2.symm⟩, fun h => ⟨h.1, h.2.symm⟩⟩
    | aborted => simp [CreateSession, generateSessionID, randRead]
  · cases rnd with
    | filled src => simp [CreateSession, hgen]
    | failed e => simp [CreateSession, generateSessionID, randRead]
    | aborted => simp [CreateSession, generateSessionID, randRead]
  · intro src hsrc
    subst hsrc
    refine ⟨{ ID := hexEncodeToString ((List.range 32).map src), Username := username,
              CreatedAt := now, ExpiresAt := now + d },
            { sessions := st.sessions.set (hexEncodeToString ((List.range 32).map src))
                { ID := hexEncodeToString ((List.range 32).map src), Username := username,
                  CreatedAt := now, ExpiresAt := now + d } },
            ?_, rfl, ?_, hexEncodeToString_chars _, ?_, ?_⟩
    · simp only [CreateSession, hgen]
    · show (hexEncodeToString ((List.range 32).map src)).length = 64
      rw [hexEncodeToString_length, List.length_map, List.length_range]
    · exact GoMap.get?_set_self _ _ _
    · intro id hid
      exact GoMap.get?_set_ne _ _ hid
  · intro src src' h i hi
    rw [hgen, hgen] at h
    have h' := hexEncodeToString_injective _ _ (Except.ok.inj (Option.some.inj h))
    exact List.map_inj_left.mp h' i (List.mem_range.mpr hi)

/-- C17: `DeleteSession id` yields a store without `id` in which every other entry
is unchanged; on a store that does not contain `id` it returns the store as it
was; applying it twice equals applying it once; and afterwards `GetSession id`
returns not-found at every time. -/
theorem deleteSession_idempotent (st : SessionStore) (id : String) :
    (DeleteSession st id).sessions.get? id = none
      ∧ (∀ id', id' ≠ id → (DeleteSession st id).sessions.get? id' = st.sessions.get? id')
      ∧ (st.sessions.get? id = none → DeleteSession st id = st)
      ∧ DeleteSession (DeleteSession st id) id = DeleteSession st id
      ∧ (∀ t, (GetSession (DeleteSession st id) id t).1 = none) := by
  have hself : (DeleteSession st id).sessions.get? id = none := GoMap.get?_delete_self _ _
  refine ⟨hself, fun id' h => GoMap.get?_delete_ne _ h, ?_, ?_, ?_⟩
  · intro hnone
    show ({ sessions := st.sessions.delete id } : SessionStore) = st
    rw [GoMap.delete_of_get?_none _ _ hnone]
  · show ({ sessions := (DeleteSession st id).sessions.delete id } : SessionStore)
      = DeleteSession st id
    rw [GoMap.delete_of_get?_none _ _ hself]
  · intro t
    simp [GetSession, hself]

/-! ## Order of events in a mailbox -/

/-- Closing the old channel of `u` keeps the contents of every channel. -/
theorem closeOld_buf {s : NotificationService} (hwf : WF s) (u : String) (i : ChanId)
    (ch : Chan) (hch : s.chans[i]? = some ch) :
    ∃ ch1, (closeOld s u)[i]? = some ch1 ∧ ch1.buf = ch.buf := by
  by_cases hget : s.clients.get? u = some i
  · refine ⟨{ ch with closed := true }, ?_, rfl⟩
    rw [closeOld_closed hwf hget, hch]
    rfl
  · exact ⟨ch, by rw [closeOld_same hwf u i hget, hch], rfl⟩

/-- A broadcast in a well-formed state keeps the contents of every channel or
appends one element to them. -/
theorem broadcastEventLocked_buf (marshal : Marshal) {s s' : NotificationService}
    (hwf : WF s) {eventType : EventType} {payload : Payload} {now : Time}
    {targetUsers : List String}
    (hrun : broadcastEventLocked marshal s eventType payload now targetUsers = some s')
    (i : ChanId) (ch : Chan) (hch : s.chans[i]? = some ch) :
    ∃ ch', s'.chans[i]? = some ch'
      ∧ (ch'.buf = ch.buf ∨ ∃ ev, ch'.buf = ch.buf ++ [ev]) := by
  obtain ⟨s'', hrun', hok, herr⟩ :=
    broadcastEventLocked_spec marshal s eventType payload now targetUsers hwf
  rw [hrun] at hrun'
  cases hrun'
  cases hm : marshal { Type' := eventType, Payload := payload, Timestamp := now } with
  | error err =>
    rw [herr err hm]
    exact ⟨ch, hch, Or.inl rfl⟩
  | ok ev =>
    rcases (hok ev hm).cases i with h | h
    · exact ⟨ch, by rw [h, hch], Or.inl rfl⟩
    · refine ⟨ch.push ev, by rw [h, hch]; rfl, ?_⟩
      by_cases hroom : ch.buf.length < ch.cap
      · rw [Chan.push_of_room ch ev hroom]
        exact Or.inr ⟨ev, rfl⟩
      · rw [Chan.push_of_full ch ev (Nat.le_of_not_lt hroom)]
        exact Or.inl rfl

/-- Every call from a well-formed state is a step that keeps the contents of every
channel, followed by nothing or by one broadcast from a well-formed state. -/
theorem step_decompose (marshal : Marshal) {s s' : NotificationService} (hwf : WF s)
    (op : Op) (hstep : step marshal s op = some s') :
    ∃ s1, WF s1
      ∧ (∀ (i : ChanId) (ch : Chan), s.chans[i]? = some ch →
          ∃ ch1, s1.chans[i]? = some ch1 ∧ ch1.buf = ch.buf)
      ∧ (s' = s1 ∨ ∃ eventType payload now targetUsers,
          broadcastEventLocked marshal s1 eventType payload now targetUsers = some s') := by
  have hsame : ∀ (i : ChanId) (ch : Chan), s.chans[i]? = some ch →
      ∃ ch1, s.chans[i]? = some ch1 ∧ ch1.buf = ch.buf :=
    fun i ch h => ⟨ch, h, rfl⟩
  cases op with
  | addClient username now =>
    have hwf1 := wf_registered hwf username
    obtain ⟨s'', hrun, _⟩ := broadcastEventLocked_total marshal hwf1
      EventTypeUserConnected (.userConnected { Username := username }) now []
    have hs : step marshal s (.addClient username now) = some s'' := by
      simp [step, AddClient_eq marshal hwf, hrun]
    rw [hs] at hstep
    cases hstep
    refine ⟨registered s username, hwf1, ?_, Or.inr ⟨_, _, _, _, hrun⟩⟩
    intro i ch hch
    obtain ⟨ch1, hch1, hbuf⟩ := closeOld_buf hwf username i ch hch
    have hlt : i < (closeOld s username).length := (List.getElem?_eq_some_iff.mp hch1).1
    refine ⟨ch1, ?_, hbuf⟩
    show (closeOld s username ++ [({ buf := [], cap := 10, closed := false } : Chan)])[i]? = _
    rw [List.getElem?_append_left hlt, hch1]
  | removeClient username now =>
    cases hget : s.clients.get? username with
    | none =>
      have hs : step marshal s (.removeClient username now) = some s := by
        simp [step, RemoveClient, hget]
      rw [hs] at hstep
      cases hstep
      exact ⟨s, hwf, hsame, Or.inl rfl⟩
    | some c0 =>
      have hwf1 := wf_unregistered hwf username
      have hs : step marshal s (.removeClient username now)
          = broadcastEventLocked marshal (unregistered s username) EventTypeUserDisconnected
              (.userDisconnected { Username := username }) now [] := by
        simp [step, RemoveClient_eq marshal hwf hget]
      rw [hs] at hstep
      exact ⟨unregistered s username, hwf1, fun i ch hch => closeOld_buf hwf username i ch hch,
        Or.inr ⟨_, _, _, _, hstep⟩⟩
  | broadcastMessage req id now now' =>
    refine ⟨s, hwf, hsame, Or.inr ?_⟩
    by_cases hall : req.TargetUsername = "all"
    · simp only [step, BroadcastMessage, hall, if_true] at hstep
      exact ⟨_, _, _, _, hstep⟩
    · simp only [step, BroadcastMessage, hall, if_false] at hstep
      exact ⟨_, _, _, _, hstep⟩
  | createAcknowledgmentRequest fromUsername toUsernames message requestID now now' =>
    have hwf1 : WF { s with
        acknowledgmentReqs := s.acknowledgmentReqs.set requestID
          { ID := requestID, FromUsername := fromUsername, ToUsernames := toUsernames,
            Message := message, CreatedAt := now }
        acknowledgmentAckd := s.acknowledgmentAckd.set requestID [] } := hwf.of_eq rfl rfl
    obtain ⟨s'', hrun, _⟩ := broadcastEventLocked_total marshal hwf1
      EventTypeAcknowledgmentRequest
      (.acknowledgmentRequest
        { ID := requestID, FromUsername := fromUsername, ToUsernames := toUsernames,
          Message := message })
      now' toUsernames
    have hs : step marshal s (.createAcknowledgmentRequest fromUsername toUsernames message
        requestID now now') = some s'' := by
      simp [step, CreateAcknowledgmentRequest, hrun]
    rw [hs] at hstep
    cases hstep
    exact ⟨_, hwf1, hsame, Or.inr ⟨_, _, _, _, hrun⟩⟩
  | recordAcknowledgment requestID fromUsername now =>
    cases hget : s.acknowledgmentReqs.get? requestID with
    | none =>
      have hs : step marshal s (.recordAcknowledgment requestID fromUsername now) = some s := by
        simp [step, RecordAcknowledgment, hget]
      rw [hs] at hstep
      cases hstep
      exact ⟨s, hwf, hsame, Or.inl rfl⟩
    | some req =>
      have hwf1 : WF { s with
          acknowledgmentAckd := s.acknowledgmentAckd.set requestID
            ((s.acknowledgmentAckd.get? requestID).getD [] ++ [fromUsername]) } :=
        hwf.of_eq rfl rfl
      obtain ⟨s'', hrun, _⟩ := broadcastEventLocked_total marshal hwf1
        EventTypeAcknowledgmentResponse
        (.acknowledgmentResponse { RequestID := requestID, FromUsername := fromUsername })
        now [req.FromUsername]
      have hs : step marshal s (.recordAcknowledgment requestID fromUsername now)
          = some s'' := by
        simp [step, RecordAcknowledgment, hget, hrun]
      rw [hs] at hstep
      cases hstep
      exact ⟨_, hwf1, hsame, Or.inr ⟨_, _, _, _, hrun⟩⟩

/-- Every call from a well-formed state keeps the contents of every channel or
appends one element to them. -/
theorem step_buf (marshal : Marshal) {s s' : NotificationService} (hwf : WF s) (op : Op)
    (hstep : step marshal s op = some s') (i : ChanId) (ch : Chan)
    (hch : s.chans[i]? = some ch) :
    ∃ ch', s'.chans[i]? = some ch'
      ∧ (ch'.buf = ch.buf ∨ ∃ ev, ch'.buf = ch.buf ++ [ev]) := by
  obtain ⟨s1, hwf1, hkeep, hrest⟩ := step_decompose marshal hwf op hstep
  obtain ⟨ch1, hch1, hbuf⟩ := hkeep i ch hch
  rcases hrest with rfl | ⟨eventType, payload, now, targetUsers, hrun⟩
  · exact ⟨ch1, hch1, Or.inl hbuf⟩
  · obtain ⟨ch', hch', hor⟩ := broadcastEventLocked_buf marshal hwf1 hrun i ch1 hch1
    rw [hbuf] at hor
    exact ⟨ch', hch', hor⟩

/-- C18: from a well-formed state every call of a public operation returns, and for
every username registered with the same channel before and after the call, the
contents of the mailbox before the call are a prefix of its contents after it:
the contents are unchanged or have exactly one event appended at the tail. -/
theorem mailbox_fifo (marshal : Marshal) (s : NotificationService) (op : Op) (hwf : WF s) :
    ∃ s', step marshal s op = some s'
      ∧ ∀ u c, s.clients.get? u = some c → s'.clients.get? u = some c →
          ∃ ch ch', mailbox s u = some ch ∧ mailbox s' u = some ch'
            ∧ ch.buf <+: ch'.buf
            ∧ (ch'.buf = ch.buf ∨ ∃ ev, ch'.buf = ch.buf ++ [ev]) := by
  obtain ⟨s', hstep, _⟩ := step_wf marshal hwf op
  refine ⟨s', hstep, ?_⟩
  intro u c hget hget'
  obtain ⟨ch, hch, _⟩ := hwf.registered_open hget
  obtain ⟨ch', hch', hor⟩ := step_buf marshal hwf op hstep c ch hch
  refine ⟨ch, ch', by simp [mailbox, hget, hch], by simp [mailbox, hget', hch'], ?_, hor⟩
  rcases hor with h | ⟨ev, h⟩
  · rw [h]
  · rw [h]
    exact List.prefix_append _ _

/-- Instance of `mailbox_fifo`: `alice` notifies everyone while `bob` is connected. -/
theorem mailbox_fifo_witness :
    ∃ s', step demoMarshal bobConnected
        (.broadcastMessage { FromUsername := "alice", Message := "hi", TargetUsername := "all" }
          "n1" 3 4) = some s'
      ∧ ∀ u c, bobConnected.clients.get? u = some c → s'.clients.get? u = some c →
          ∃ ch ch', mailbox bobConnected u = some ch ∧ mailbox s' u = some ch'
            ∧ ch.buf <+: ch'.buf
            ∧ (ch'.buf = ch.buf ∨ ∃ ev, ch'.buf = ch.buf ++ [ev]) :=
  mailbox_fifo demoMarshal bobConnected
    (.broadcastMessage { FromUsername := "alice", Message := "hi", TargetUsername := "all" }
      "n1" 3 4)
    (by decide)

/-! ## Acknowledgment tables -/

/-- The acknowledgment tables after a call from a well-formed state: unchanged, or
an assignment of a new request with an empty list, or one name appended to the
list of a recorded request. -/
theorem step_tables (marshal : Marshal) {s s' : NotificationService} (hwf : WF s) (op : Op)
    (hstep : step marshal s op = some s') :
    (s'.acknowledgmentReqs = s.acknowledgmentReqs
        ∧ s'.acknowledgmentAckd = s.acknowledgmentAckd)
      ∨ (∃ id req, (Op.fresh s op → s.acknowledgmentReqs.get? id = none)
          ∧ s'.acknowledgmentReqs = s.acknowledgmentReqs.set id req
          ∧ s'.acknowledgmentAckd = s.acknowledgmentAckd.set id [])
      ∨ (∃ id b req, s.acknowledgmentReqs.get? id = some req
          ∧ s'.acknowledgmentReqs = s.acknowledgmentReqs
          ∧ s'.acknowledgmentAckd = s.acknowledgmentAckd.set id
              ((s.acknowledgmentAckd.get? id).getD [] ++ [b])) := by
  cases op with
  | addClient username now =>
    have hwf1 := wf_registered hwf username
    obtain ⟨s'', hrun, _⟩ := broadcastEventLocked_total marshal hwf1
      EventTypeUserConnected (.userConnected { Username := username }) now []
    have hs : step marshal s (.addClient username now) = some s'' := by
      simp [step, AddClient_eq marshal hwf, hrun]
    rw [hs] at hstep
    cases hstep
    obtain ⟨_, h1, h2, _⟩ := broadcastEventLocked_frame marshal _ s' _ _ _ _ hwf1 hrun
    exact Or.inl ⟨h1, h2⟩
  | removeClient username now =>
    cases hget : s.clients.get? username with
    | none =>
      have hs : step marshal s (.removeClient username now) = some s := by
        simp [step, RemoveClient, hget]
      rw [hs] at hstep
      cases hstep
      exact Or.inl ⟨rfl, rfl⟩
    | some c0 =>
      have hwf1 := wf_unregistered hwf username
      have hs : step marshal s (.removeClient username now)
          = broadcastEventLocked marshal (unregistered s username) EventTypeUserDisconnected
              (.userDisconnected { Username := username }) now [] := by
        simp [step, RemoveClient_eq marshal hwf hget]
      rw [hs] at hstep
      obtain ⟨_, h1, h2, _⟩ := broadcastEventLocked_frame marshal _ s' _ _ _ _ hwf1 hstep
      exact Or.inl ⟨h1, h2⟩
  | broadcastMessage req id now now' =>
    by_cases hall : req.TargetUsername = "all"
    · simp only [step, BroadcastMessage, hall, if_true] at hstep
      obtain ⟨_, h1, h2, _⟩ := broadcastEventLocked_frame marshal _ s' _ _ _ _ hwf hstep
      exact Or.inl ⟨h1, h2⟩
    · simp only [step, BroadcastMessage, hall, if_false] at hstep
      obtain ⟨_, h1, h2, _⟩ := broadcastEventLocked_frame marshal _ s' _ _ _ _ hwf hstep
      exact Or.inl ⟨h1, h2⟩
  | createAcknowledgmentRequest fromUsername toUsernames message requestID now now' =>
    have hwf1 : WF { s with
        acknowledgmentReqs := s.acknowledgmentReqs.set requestID
          { ID := requestID, FromUsername := fromUsername, ToUsernames := toUsernames,
            Message := message, CreatedAt := now }
        acknowledgmentAckd := s.acknowledgmentAckd.set requestID [] } := hwf.of_eq rfl rfl
    obtain ⟨s'', hrun, _⟩ := broadcastEventLocked_total marshal hwf1
      EventTypeAcknowledgmentRequest
      (.acknowledgmentRequest
        { ID := requestID, FromUsername := fromUsername, ToUsernames := toUsernames,
          Message := message })
      now' toUsernames
    have hs : step marshal s (.createAcknowledgmentRequest fromUsername toUsernames message
        requestID now now') = some s'' := by
      simp [step, CreateAcknowledgmentRequest, hrun]
    rw [hs] at hstep
    cases hstep
    obtain ⟨_, h1, h2, _⟩ := broadcastEventLocked_frame marshal _ s' _ _ _ _ hwf1 hrun
    exact Or.inr (Or.inl ⟨requestID, _, fun hf => hf, h1, h2⟩)
  | recordAcknowledgment requestID fromUsername now =>
    cases hget : s.acknowledgmentReqs.get? requestID with
    | none =>
      have hs : step marshal s (.recordAcknowledgment requestID fromUsername now) = some s := by
        simp [step, RecordAcknowledgment, hget]
      rw [hs] at hstep
      cases hstep
      exact Or.inl ⟨rfl, rfl⟩
    | some req =>
      have hwf1 : WF { s with
          acknowledgmentAckd := s.acknowledgmentAckd.set requestID
            ((s.acknowledgmentAckd.get? requestID).getD [] ++ [fromUsername]) } :=
        hwf.of_eq rfl rfl
      obtain ⟨s'', hrun, _⟩ := broadcastEventLocked_total marshal hwf1
        EventTypeAcknowledgmentResponse
        (.acknowledgmentResponse { RequestID := requestID, FromUsername := fromUsername })
        now [req.FromUsername]
      have hs : step marshal s (.recordAcknowledgment requestID fromUsername now)
          = some s'' := by
        simp [step, RecordAcknowledgment, hget, hrun]
      rw [hs] at hstep
      cases hstep
      obtain ⟨_, h1, h2, _⟩ := broadcastEventLocked_frame marshal _ s' _ _ _ _ hwf1 hrun
      exact Or.inr (Or.inr ⟨requestID, fromUsername, req, hget, h1, h2⟩)

/-- A call from a well-formed state keeps the two tables on the same ids. -/
theorem step_ackInv (marshal : Marshal) {s s' : NotificationService} (hwf : WF s)
    (hinv : AckInv s) (op : Op) (hstep : step marshal s op = some s') : AckInv s' := by
  intro id
  rcases step_tables marshal hwf op hstep with ⟨h1, h2⟩ | ⟨id0, req, _, h1, h2⟩
    | ⟨id0, b, req, hreq, h1, h2⟩
  · rw [h1, h2]
    exact hinv id
  · rw [h1, h2]
    by_cases hid : id = id0
    · subst hid
      rw [GoMap.get?_set_self, GoMap.get?_set_self]
      rfl
    · rw [GoMap.get?_set_ne _ _ hid, GoMap.get?_set_ne _ _ hid]
      exact hinv id
  · rw [h1, h2]
    by_cases hid : id = id0
    · subst hid
      rw [GoMap.get?_set_self, hreq]
      rfl
    · rw [GoMap.get?_set_ne _ _ hid]
      exact hinv id

theorem wf_ackInv_run (marshal : Marshal) (ops : List Op) :
    ∀ {s s' : NotificationService}, WF s → AckInv s → run marshal s ops = some s' →
      AckInv s' := by
  induction ops with
  | nil =>
    intro s s' _ hinv hrun
    cases hrun
    exact hinv
  | cons op ops ih =>
    intro s s' hwf hinv hrun
    obtain ⟨s1, hstep, hwf1⟩ := step_wf marshal hwf op
    simp only [run, hstep] at hrun
    exact ih hwf1 (step_ackInv marshal hwf hinv op hstep) hrun

/-- C19: in every reachable state the request table and the acknowledged-list
table hold the same ids; and every call whose generated id is fresh returns,
keeps every recorded request with the same fields, and leaves every acknowledged
list a prefix of the list afterwards. -/
theorem acknowledgments_append_only (marshal : Marshal) (s : NotificationService)
    (hreach : Reachable marshal s) :
    (∀ id, (s.acknowledgmentReqs.get? id).isSome = (s.acknowledgmentAckd.get? id).isSome)
      ∧ ∀ op, Op.fresh s op →
          ∃ s', step marshal s op = some s'
            ∧ (∀ id req, s.acknowledgmentReqs.get? id = some req →
                s'.acknowledgmentReqs.get? id = some req)
            ∧ (∀ id l, s.acknowledgmentAckd.get? id = some l →
                ∃ l', s'.acknowledgmentAckd.get? id = some l' ∧ l <+: l')
            ∧ (∀ id, (s'.acknowledgmentReqs.get? id).isSome
                = (s'.acknowledgmentAckd.get? id).isSome) := by
  have hwf := hreach.wellFormed
  have hinv : AckInv s := by
    obtain ⟨ops, hrun⟩ := hreach
    exact wf_ackInv_run marshal ops wf_new (fun _ => rfl) hrun
  refine ⟨hinv, ?_⟩
  intro op hfresh
  obtain ⟨s', hstep, _⟩ := step_wf marshal hwf op
  refine ⟨s', hstep, ?_, ?_, step_ackInv marshal hwf hinv op hstep⟩
  · intro id req hreq
    rcases step_tables marshal hwf op hstep with ⟨h1, _⟩ | ⟨id0, req0, hnew, h1, _⟩
      | ⟨_, _, _, _, h1, _⟩
    · rw [h1]; exact hreq
    · rw [h1]
      have hid : id ≠ id0 := by
        intro e
        rw [e, hnew hfresh] at hreq
        cases hreq
      rw [GoMap.get?_set_ne _ _ hid]
      exact hreq
    · rw [h1]; exact hreq
  · intro id l hl
    rcases step_tables marshal hwf op hstep with ⟨_, h2⟩ | ⟨id0, req0, hnew, _, h2⟩
      | ⟨id0, b, _, _, _, h2⟩
    · exact ⟨l, by rw [h2]; exact hl, List.prefix_refl l⟩
    · have hid : id ≠ id0 := by
        intro e
        have h := hinv id0
        rw [hnew hfresh, ← e, hl] at h
        cases h
      exact ⟨l, by rw [h2, GoMap.get?_set_ne _ _ hid]; exact hl, List.prefix_refl l⟩
    · by_cases hid : id = id0
      · subst hid
        refine ⟨l ++ [b], ?_, List.prefix_append _ _⟩
        rw [h2, GoMap.get?_set_self, hl]
        rfl
      · exact ⟨l, by rw [h2, GoMap.get?_set_ne _ _ hid]; exact hl, List.prefix_refl l⟩

/-- Instance of `acknowledgments_append_only` on the state `aliceFull`, reached by the
calls `aliceFullOps`. -/
theorem acknowledgments_append_only_witness :
    (∀ id, (aliceFull.acknowledgmentReqs.get? id).isSome
        = (aliceFull.acknowledgmentAckd.get? id).isSome)
      ∧ ∀ op, Op.fresh aliceFull op →
          ∃ s', step demoMarshal aliceFull op = some s'
            ∧ (∀ id req, aliceFull.acknowledgmentReqs.get? id = some req →
                s'.acknowledgmentReqs.get? id = some req)
            ∧ (∀ id l, aliceFull.acknowledgmentAckd.get? id = some l →
                ∃ l', s'.acknowledgmentAckd.get? id = some l' ∧ l <+: l')
            ∧ (∀ id, (s'.acknowledgmentReqs.get? id).isSome
                = (s'.acknowledgmentAckd.get? id).isSome) :=
  acknowledgments_append_only demoMarshal aliceFull ⟨aliceFullOps, by decide⟩

/-! ## No panic on channels -/

/-- C21: in every state reachable from `NewNotificationService` by calls of the
public operations (`GetConnectedUsers` only reads the state), every channel held
in the registry is allocated and open, so `close` and the non-blocking send on
it do not panic; every further call returns without a panic, and in the state
after it every channel held in the registry is open again. -/
theorem registry_channels_open (marshal : Marshal) (s : NotificationService)
    (hreach : Reachable marshal s) :
    (∀ u c, s.clients.get? u = some c →
        (∃ ch, s.chans[c]? = some ch ∧ ch.closed = false)
        ∧ closeChan s.chans c ≠ none
        ∧ ∀ x, trySend s.chans c x ≠ none)
      ∧ ∀ op, ∃ s', step marshal s op = some s'
          ∧ ∀ u c, s'.clients.get? u = some c →
              ∃ ch, s'.chans[c]? = some ch ∧ ch.closed = false := by
  have hwf := hreach.wellFormed
  refine ⟨?_, ?_⟩
  · intro u c hget
    obtain ⟨ch, hch, hopen⟩ := hwf.registered_open hget
    refine ⟨⟨ch, hch, hopen⟩, ?_, ?_⟩
    · rw [closeChan_of_open hch hopen]
      exact Option.some_ne_none _
    · intro x
      rw [trySend_of_open x hch hopen]
      exact Option.some_ne_none _
  · intro op
    obtain ⟨s', hstep, hwf'⟩ := step_wf marshal hwf op
    exact ⟨s', hstep, fun u c hget => hwf'.registered_open hget⟩

/-- Instance of `registry_channels_open` on the state `aliceSuperseded`, reached by three
connects, whose heap holds one closed channel that is no longer registered. -/
theorem registry_channels_open_witness :
    (∀ u c, aliceSuperseded.clients.get? u = some c →
        (∃ ch, aliceSuperseded.chans[c]? = some ch ∧ ch.closed = false)
        ∧ closeChan aliceSuperseded.chans c ≠ none
        ∧ ∀ x, trySend aliceSuperseded.chans c x ≠ none)
      ∧ ∀ op, ∃ s', step demoMarshal aliceSuperseded op = some s'
          ∧ ∀ u c, s'.clients.get? u = some c →
              ∃ ch, s'.chans[c]? = some ch ∧ ch.closed = false :=
  registry_channels_open demoMarshal aliceSuperseded
    ⟨[.addClient "bob" 0, .addClient "alice" 1, .addClient "alice" 2], by decide⟩

end SseDemo
